import Mathlib

/-!
DogWidget (src/script.js): embedding and verified properties.

The widget is a custom element with two observed attributes, `mode` and
`refresh`, an interval timer and an asynchronous fetch-and-render routine.

The embedding is a state record `DogWidget` holding the instance fields
(`_mode`, `_refreshSeconds`, `_timerId`), the two host attributes, the
properties of the shadow elements that the code writes, and the part of the
browser the code talks to: the table of live intervals, the number of
requests in flight, and a log of the calls `fetch`, `setInterval`,
`clearInterval` and `console.error`.  Every method of the class is a function
on that record; the `async` routine `_fetchFact` is split at its first
`await` into `_fetchFact` (the synchronous part) and `_fetchFact_settle`
(the continuation, run when the request settles).  A method that can throw
returns in `Except`, the error being the thrown exception.

Numbers are IEEE 754 doubles with round to nearest, ties to even; the
conversions between numbers and strings are those of the language
(`StringToNumber` and `Number::toString`).
-/

namespace KT5

/-! ## JavaScript numbers -/

/-- Whether the pair `m`, `e` is the mantissa and exponent of a finite double:
the value is `m * 2^e`, the exponent lies between -1074 and 971, the mantissa
has at most 53 bits, and it has exactly 53 bits unless the exponent is the
least one (subnormal numbers and zero). -/
def F64.isCanonical (m e : Int) : Bool :=
  decide (-1074 ≤ e) && decide (e ≤ 971) && decide (m.natAbs < 2 ^ 53) &&
    (decide (e = -1074) || decide (2 ^ 52 ≤ m.natAbs))

/-- A finite double, of value `m * 2^e`.  The negative zero is identified with
zero: they agree on every operation the widget uses (comparison with 0,
truthiness, conversion to a string, product with a positive number up to the
sign of zero). -/
structure F64 where
  m : Int
  e : Int
  canonical : F64.isCanonical m e = true
  deriving DecidableEq

/-- JavaScript numbers: the finite doubles, the two infinities and NaN. -/
inductive JSNum where
  | nan
  | posInf
  | negInf
  | finite (d : F64)
  deriving DecidableEq

/-- Number of binary digits of `n`, with `fuel` at least that number. -/
def bitLenAux : Nat → Nat → Nat
  | 0, _ => 0
  | fuel + 1, n => if n = 0 then 0 else bitLenAux fuel (n / 2) + 1

/-- Number of binary digits of `n`. -/
def bitLen (n : Nat) : Nat := bitLenAux n n

/-- The quotient `n / d` rounded to the nearest integer, a tie going to the
even one. -/
def divRoundEven (n d : Nat) : Nat :=
  if 2 * (n % d) < d then n / d
  else if d < 2 * (n % d) then n / d + 1
  else if (n / d) % 2 = 0 then n / d else n / d + 1

/-- The integer nearest to `n / (d * 2^e)`, a tie going to the even one. -/
def scaledRound (n d : Nat) (e : Int) : Nat :=
  if 0 ≤ e then divRoundEven n (d * 2 ^ e.toNat) else divRoundEven (n * 2 ^ (-e).toNat) d

/-- The least exponent from `e` on at which the rounded mantissa of `n / d`
fits in 53 bits, with that mantissa; at most `fuel` steps up. -/
def findExponent : Nat → Nat → Nat → Int → Nat × Int
  | 0, n, d, e => (scaledRound n d e, e)
  | fuel + 1, n, d, e =>
    if scaledRound n d e < 2 ^ 53 then (scaledRound n d e, e)
    else findExponent fuel n d (e + 1)

/-- The number zero. -/
def F64.zero : F64 := ⟨0, -1074, by decide⟩

/-- The double nearest to the fraction `a / b`, a tie going to the even
mantissa, and an infinity when the rounded value exceeds the largest double
(round to nearest, ties to even; `roundFrac_nearest` below).  The exponent
search starts at the exponent estimated from the bit lengths, which is the
exponent of the result or less.  The last branch is never taken. -/
def roundFrac (a : Int) (b : Nat) : JSNum :=
  if a = 0 then .finite F64.zero
  else
    let e0 : Int := max ((bitLen a.natAbs : Int) - (bitLen b : Int) - 53) (-1074)
    let r := findExponent 3 a.natAbs b e0
    if 971 < r.2 then (if a < 0 then .negInf else .posInf)
    else if h : F64.isCanonical (if a < 0 then -(r.1 : Int) else (r.1 : Int)) r.2 = true then
      .finite ⟨if a < 0 then -(r.1 : Int) else (r.1 : Int), r.2, h⟩
    else .nan

/-- The double nearest to `m * 2^e`. -/
def roundScaled (m e : Int) : JSNum :=
  if 0 ≤ e then roundFrac (m * 2 ^ e.toNat) 1 else roundFrac m (2 ^ (-e).toNat)

namespace JSNum

/-- The value of a numeric literal: the double nearest to `q`. -/
def fin (q : ℚ) : JSNum := roundFrac q.num q.den

/-- The test `Number.isFinite(x)`. -/
def isFinite : JSNum → Bool
  | finite _ => true
  | _ => false

/-- The comparison `x > 0`. -/
def gtZero : JSNum → Bool
  | posInf => true
  | finite d => decide (0 < d.m)
  | _ => false

/-- The falsy numbers: zero and NaN. -/
def isFalsy : JSNum → Bool
  | nan => true
  | finite d => decide (d.m = 0)
  | _ => false

/-- The product `x * y` of double arithmetic: the exact product of two finite
numbers rounded to the nearest double, ties to even, and an infinity when it
overflows (`mul_roundsTo` below); an infinity times zero is NaN. -/
def mul : JSNum → JSNum → JSNum
  | finite a, finite b => roundScaled (a.m * b.m) (a.e + b.e)
  | nan, _ => nan
  | _, nan => nan
  | posInf, posInf => posInf
  | posInf, negInf => negInf
  | negInf, posInf => negInf
  | negInf, negInf => posInf
  | posInf, finite b => if b.m = 0 then nan else if 0 < b.m then posInf else negInf
  | negInf, finite b => if b.m = 0 then nan else if 0 < b.m then negInf else posInf
  | finite a, posInf => if a.m = 0 then nan else if 0 < a.m then posInf else negInf
  | finite a, negInf => if a.m = 0 then nan else if 0 < a.m then negInf else posInf

end JSNum

/-- The rational value of a finite double. -/
def F64.toRat (d : F64) : ℚ := (d.m : ℚ) * (2 : ℚ) ^ d.e

/-- The least magnitude that rounds to an infinity: the midpoint between the
largest double and `2^1024`. -/
def overflowBound : ℚ := ((2 : ℚ) ^ 53 - 1 / 2) * (2 : ℚ) ^ (971 : Int)

/-- The number `r` is the result of rounding the rational `q` to a double, to
nearest with ties to even: a finite `r` is a double nearest to `q` among all
doubles, with an even mantissa when another double is as near, and `q` is
below the overflow bound in magnitude; an infinite `r` means that `q` reaches
the bound on that side; `r` is never NaN. -/
def RoundsTo (q : ℚ) : JSNum → Prop
  | .finite d =>
    |q| < overflowBound ∧
    ∀ d1 : F64, |q - d.toRat| ≤ |q - d1.toRat| ∧
      (|q - d.toRat| = |q - d1.toRat| → d1 = d ∨ d.m % 2 = 0)
  | .posInf => overflowBound ≤ q
  | .negInf => q ≤ -overflowBound
  | .nan => False

/-! ## Conversions between numbers and strings -/

/-- The two conversions between strings and numbers that the language provides
and the widget calls: `Number(s)` on a string and `String(n)` on a number.
They are parameters of the embedding; `ecmaConv` below is the pair the
language defines. -/
structure NumConv where
  /-- The value of `Number(s)` for a string `s`. -/
  stringToNumber : String → JSNum
  /-- The value of `String(n)` for a number `n`. -/
  numberToString : JSNum → String

/-- The character of a decimal digit. -/
def digitChar (d : Nat) : Char := Char.ofNat (48 + d)

/-- Decimal digits of `n` in front of `acc`, with `fuel` above `n`. -/
def decimalAux : Nat → Nat → List Char → List Char
  | 0, _, acc => acc
  | fuel + 1, n, acc =>
    if n < 10 then digitChar n :: acc
    else decimalAux fuel (n / 10) (digitChar (n % 10) :: acc)

/-- The decimal digits of `n`, most significant first. -/
def decimalChars (n : Nat) : List Char := decimalAux (n + 1) n []

/-- The number a list of decimal digits denotes. -/
def digitsVal (cs : List Char) : Nat :=
  cs.foldl (fun acc c => acc * 10 + (c.toNat - 48)) 0

/-- The opposite of a number. -/
def JSNum.neg : JSNum → JSNum
  | .nan => .nan
  | .posInf => .negInf
  | .negInf => .posInf
  | .finite d => .finite ⟨-d.m, d.e, by
      have h := d.canonical
      simpa [F64.isCanonical] using h⟩

/-- The double nearest to `S * 10^P`.  Values beyond the range of the doubles
are settled without computing the power. -/
def roundDecimal (S : Nat) (P : Int) : JSNum :=
  if S = 0 then .finite F64.zero
  else if 400 < P then .posInf
  else if P + ((decimalChars S).length : Int) < -400 then .finite F64.zero
  else if 0 ≤ P then roundFrac ((S * 10 ^ P.toNat : Nat) : Int) 1
  else roundFrac (S : Int) (10 ^ (-P).toNat)

/-- The characters `StringToNumber` strips from both ends: white space and
line terminators. -/
def isStrWhiteSpace (c : Char) : Bool :=
  c.toNat ∈ [9, 10, 11, 12, 13, 32, 160, 5760, 8232, 8233, 8239, 8287, 12288, 65279] ||
    (8192 ≤ c.toNat && c.toNat ≤ 8202)

/-- A list of characters without leading and trailing white space. -/
def trimWhiteSpace (cs : List Char) : List Char :=
  ((cs.dropWhile isStrWhiteSpace).reverse.dropWhile isStrWhiteSpace).reverse

/-- Split a list at the first character satisfying `p`: what precedes it, and
what follows it when there is one. -/
def breakAt (p : Char → Bool) : List Char → List Char × Option (List Char)
  | [] => ([], none)
  | c :: cs => if p c then ([], some cs) else ((c :: (breakAt p cs).1), (breakAt p cs).2)

/-- A non-empty list of decimal digits. -/
def isDecimalDigits (cs : List Char) : Bool := !cs.isEmpty && cs.all Char.isDigit

/-- The grammar `SignedInteger` of an exponent. -/
def parseExponent (cs : List Char) : Option Int :=
  match cs with
  | '+' :: ds => if isDecimalDigits ds then some (digitsVal ds : Int) else none
  | '-' :: ds => if isDecimalDigits ds then some (-(digitsVal ds : Int)) else none
  | ds => if isDecimalDigits ds then some (digitsVal ds : Int) else none

/-- The grammar `StrUnsignedDecimalLiteral`: `Infinity`, or digits with an
optional point and an optional exponent; the result is the number it
denotes. -/
def parseUnsignedDecimal (cs : List Char) : Option JSNum :=
  if cs = "Infinity".data then some .posInf
  else
    let mant := (breakAt (fun c => c == 'e' || c == 'E') cs).1
    let ex := (breakAt (fun c => c == 'e' || c == 'E') cs).2
    let ip := (breakAt (fun c => c == '.') mant).1
    let fp := ((breakAt (fun c => c == '.') mant).2).getD []
    if !(ip.all Char.isDigit && fp.all Char.isDigit) || (ip ++ fp).isEmpty then none
    else
      match ex with
      | none => some (roundDecimal (digitsVal (ip ++ fp)) (-(fp.length : Int)))
      | some ecs =>
        match parseExponent ecs with
        | none => none
        | some x => some (roundDecimal (digitsVal (ip ++ fp)) (x - (fp.length : Int)))

/-- The value of a digit in a base up to 16, if the character is one. -/
def radixDigit (base : Nat) (c : Char) : Option Nat :=
  let v :=
    if c.isDigit then c.toNat - 48
    else if 97 ≤ c.toNat ∧ c.toNat ≤ 102 then c.toNat - 87
    else if 65 ≤ c.toNat ∧ c.toNat ≤ 70 then c.toNat - 55
    else 16
  if v < base then some v else none

/-- The value of a non-empty list of digits in a base, if they all are. -/
def parseRadix (base : Nat) (cs : List Char) : Option Nat :=
  if cs.isEmpty then none
  else cs.foldl (fun acc c =>
    match acc, radixDigit base c with
    | some a, some v => some (a * base + v)
    | _, _ => none) (some 0)

/-- The base and digits of a `NonDecimalIntegerLiteral`: prefix `0x`, `0o` or
`0b` in either case. -/
def radixLiteral (cs : List Char) : Option (Nat × List Char) :=
  match cs with
  | c0 :: c1 :: ds =>
    if c0 = '0' then
      if c1 = 'x' ∨ c1 = 'X' then some (16, ds)
      else if c1 = 'o' ∨ c1 = 'O' then some (8, ds)
      else if c1 = 'b' ∨ c1 = 'B' then some (2, ds)
      else none
    else none
  | _ => none

/-- The grammar `StrNumericLiteral` on a trimmed, non-empty list of
characters; NaN when it does not match. -/
def parseNumeric (cs : List Char) : JSNum :=
  match radixLiteral cs with
  | some (base, ds) =>
    match parseRadix base ds with
    | some v => roundFrac (v : Int) 1
    | none => .nan
  | none =>
    match cs with
    | '+' :: rest => (parseUnsignedDecimal rest).getD .nan
    | '-' :: rest => ((parseUnsignedDecimal rest).map JSNum.neg).getD .nan
    | _ => (parseUnsignedDecimal cs).getD .nan

/-- The operation `StringToNumber`, the value of `Number(s)` on a string: the
empty or blank string is 0, a numeric literal is rounded to the nearest double
(the exact value of the literal is rounded, whatever the number of digits, as
the engines do), anything else is NaN. -/
def stringToNumber (s : String) : JSNum :=
  if (trimWhiteSpace s.data).isEmpty then .finite F64.zero
  else parseNumeric (trimWhiteSpace s.data)

/-- Whether `a / b < 10^j`. -/
def belowPow10 (a b : Nat) (j : Int) : Bool :=
  if 0 ≤ j then decide (a < b * 10 ^ j.toNat) else decide (a * 10 ^ (-j).toNat < b)

/-- The least `j` from `j` on with `a / b < 10^j`, at most `fuel` steps up. -/
def findDecimalExponent : Nat → Nat → Nat → Int → Int
  | 0, _, _, j => j
  | fuel + 1, a, b, j => if belowPow10 a b j then j else findDecimalExponent fuel a b (j + 1)

/-- The integer `n` with `10^(n-1) ≤ a / b < 10^n`, for a positive fraction;
the search starts below the estimate from the bit lengths. -/
def decimalExponent (a b : Nat) : Int :=
  findDecimalExponent 8 a b ((((bitLen a : Int) - (bitLen b : Int) - 1) * 30103) / 100000 - 2)

/-- The two integers next to `a / (b * 10^j)`, the nearer first (the even one
on a tie). -/
def nearestPair (a b : Nat) (j : Int) : List Nat :=
  let n := if 0 ≤ j then a else a * 10 ^ (-j).toNat
  let d := if 0 ≤ j then b * 10 ^ j.toNat else b
  if 2 * (n % d) < d then [n / d, n / d + 1]
  else if d < 2 * (n % d) then [n / d + 1, n / d]
  else if (n / d) % 2 = 0 then [n / d, n / d + 1] else [n / d + 1, n / d]

/-- The candidates with `k` digits for the decimal form of `a / b`, whose
decimal exponent is `n`: pairs of a digit string `s` and an exponent, the
nearer to the value first.  The power `10^k` is written with the digit 1. -/
def candidatesAt (a b : Nat) (n : Int) (k : Nat) : List (Nat × Int) :=
  (nearestPair a b (n - k)).map
    (fun s => if s = 10 ^ k then (10 ^ (k - 1), n + 1) else (s, n))

/-- The double denoted by the digits `s` with decimal exponent `n`: the value
`s * 10^(n - k)`, `k` being the number of digits. -/
def decimalValue (c : Nat × Int) : JSNum :=
  roundDecimal c.1 (c.2 - ((decimalChars c.1).length : Int))

/-- The exact decimal form of a positive double. -/
def exactDigits (d : F64) : Nat × Int :=
  if 0 ≤ d.e then
    (d.m.toNat * 2 ^ d.e.toNat, ((decimalChars (d.m.toNat * 2 ^ d.e.toNat)).length : Int))
  else
    (d.m.toNat * 5 ^ (-d.e).toNat,
      d.e + ((decimalChars (d.m.toNat * 5 ^ (-d.e).toNat)).length : Int))

/-- The digits `s` and exponent `n` of `Number::toString` for a positive
double: `s` has as few digits as possible among those whose value
`s * 10^(n - k)` rounds to the double, and is the nearest to it among these.
Seventeen digits always suffice; the exact decimal form stands as the last
resort. -/
def shortestDigits (d : F64) : Nat × Int :=
  let a := if 0 ≤ d.e then d.m.toNat * 2 ^ d.e.toNat else d.m.toNat
  let b := if 0 ≤ d.e then 1 else 2 ^ (-d.e).toNat
  let n := decimalExponent a b
  match ((List.range 17).flatMap (fun i => candidatesAt a b n (i + 1))).find?
      (fun c => decide (0 < c.1) && decide (decimalValue c = .finite d)) with
  | some c => c
  | none => exactDigits d

/-- The text of digits `s` with decimal exponent `n`, as `Number::toString`
lays it out: plain digits, digits with a point, or the exponent form. -/
def formatDecimal (s : Nat) (n : Int) : List Char :=
  let ds := decimalChars s
  let k : Int := ds.length
  if k ≤ n ∧ n ≤ 21 then ds ++ List.replicate (n - k).toNat '0'
  else if 0 < n ∧ n ≤ 21 then ds.take n.toNat ++ '.' :: ds.drop n.toNat
  else if -6 < n ∧ n ≤ 0 then '0' :: '.' :: (List.replicate (-n).toNat '0' ++ ds)
  else if ds.length = 1 then
    ds ++ 'e' :: (if n - 1 < 0 then '-' else '+') :: decimalChars (n - 1).natAbs
  else
    ds.take 1 ++ '.' :: (ds.drop 1 ++
      'e' :: (if n - 1 < 0 then '-' else '+') :: decimalChars (n - 1).natAbs)

/-- The text of a positive double. -/
def positiveToString (d : F64) : String :=
  String.mk (formatDecimal (shortestDigits d).1 (shortestDigits d).2)

/-- The operation `Number::toString` in base 10, the value of `String(n)` on a
number. -/
def numberToString : JSNum → String
  | .nan => "NaN"
  | .posInf => "Infinity"
  | .negInf => "-Infinity"
  | .finite d =>
    if d.m = 0 then "0"
    else if d.m < 0 then
      "-" ++ positiveToString ⟨-d.m, d.e, by
        have h := d.canonical
        simpa [F64.isCanonical] using h⟩
    else positiveToString d

/-- The conversions of the language. -/
def ecmaConv : NumConv := ⟨stringToNumber, numberToString⟩

/-- The characters of the text of a number: digits, point, exponent mark and
signs. -/
def isPlain (c : Char) : Bool :=
  c.isDigit || c == '.' || c == 'e' || c == '+' || c == '-'

/-! ## JavaScript values -/

/-- The JavaScript values the model ranges over: the primitives other than
BigInt, and the arrays and plain objects that `JSON.parse` produces (an object
is the list of its own properties, its prototype is `Object.prototype`, and no
value is callable).  BigInts, functions and objects with accessors or with
user-defined conversion methods are outside the model. -/
inductive JSValue where
  | undefined
  | null
  | bool (b : Bool)
  | number (n : JSNum)
  | string (s : String)
  | symbol (description : String)
  | array (xs : List JSValue)
  | object (props : List (String × JSValue))

/-- The values `undefined` and `null`. -/
def isNullish : JSValue → Bool
  | .undefined => true
  | .null => true
  | _ => false

/-- The message of the TypeError thrown when an object has no usable
conversion method. -/
def primitiveError : String := "TypeError: Cannot convert object to primitive value"

/-- The message of the TypeError thrown when a symbol is converted. -/
def symbolError : String := "TypeError: Cannot convert a Symbol value"

mutual
/-- The conversion of a value to a string (`ToString`), applied by the setter
of `textContent`; `Except.error` is a thrown TypeError.  A plain object is
converted by the inherited `toString` method, unless it has an own property of
that name: that property is not callable, the inherited `valueOf` returns the
object itself, and the conversion throws.  An array is converted by `join`,
which converts its elements. -/
def JSString (P : NumConv) : JSValue → Except String String
  | .undefined => .ok "undefined"
  | .null => .ok "null"
  | .bool b => .ok (if b then "true" else "false")
  | .number n => .ok (P.numberToString n)
  | .string s => .ok s
  | .symbol _ => .error symbolError
  | .array xs => joinElements P xs
  | .object props =>
    if (props.lookup "toString").isSome then .error primitiveError
    else .ok "[object Object]"
/-- The result of `Array.prototype.join` with the separator `,`: the elements
are converted in order, `undefined` and `null` giving the empty string. -/
def joinElements (P : NumConv) : List JSValue → Except String String
  | [] => .ok ""
  | x :: rest =>
    match (if isNullish x then .ok "" else JSString P x) with
    | .error e => .error e
    | .ok sx =>
      match rest with
      | [] => .ok sx
      | _ =>
        match joinElements P rest with
        | .error e => .error e
        | .ok sr => .ok (sx ++ "," ++ sr)
end

/-- The conversion `Number(v)`; `Except.error` is a thrown TypeError.  An
array or an object is first converted to a string. -/
def Number (P : NumConv) : JSValue → Except String JSNum
  | .undefined => .ok .nan
  | .null => .ok (.fin 0)
  | .bool b => .ok (if b then .fin 1 else .fin 0)
  | .number n => .ok n
  | .string s => .ok (P.stringToNumber s)
  | .symbol _ => .error symbolError
  | .array xs =>
    match JSString P (.array xs) with
    | .error e => .error e
    | .ok t => .ok (P.stringToNumber t)
  | .object props =>
    match JSString P (.object props) with
    | .error e => .error e
    | .ok t => .ok (P.stringToNumber t)

/-- Truthiness of a value, as tested by `if (v)` and `!v`. -/
def truthy : JSValue → Bool
  | .undefined => false
  | .null => false
  | .bool b => b
  | .number n => !n.isFalsy
  | .string s => decide (s ≠ "")
  | .symbol _ => true
  | .array _ => true
  | .object _ => true

/-- The comparison `v === lit` against a string literal. -/
def strictEqString : JSValue → String → Bool
  | .string s, lit => decide (s = lit)
  | _, _ => false

/-- The number `Number(v)` of an attribute value as the callback receives it:
a string, or `null` when the attribute is absent, whose number is 0.  No
exception is possible on these. -/
def attrNumber (P : NumConv) : Option String → JSNum
  | none => .fin 0
  | some v => P.stringToNumber v

/-- Property read `v.key` on a value that is not nullish, for the three names
the widget reads (`data`, `attributes`, `body`): only a plain object can
have them. -/
def getField (v : JSValue) (key : String) : JSValue :=
  match v with
  | .object props => (props.lookup key).getD .undefined
  | _ => .undefined

/-- Element read `v[0]` on a value that is not nullish: the first element of
an array, the first character of a string, the property named `0` of an
object. -/
def getIndex0 (v : JSValue) : JSValue :=
  match v with
  | .object props => (props.lookup "0").getD .undefined
  | .array xs => xs.head?.getD .undefined
  | .string s =>
    match s.data with
    | [] => .undefined
    | c :: _ => .string (String.singleton c)
  | _ => .undefined

/-- Optional chaining `v?.key`. -/
def optField (v : JSValue) (key : String) : JSValue :=
  if isNullish v then .undefined else getField v key

/-- Optional chaining `v?.[0]`. -/
def optIndex0 (v : JSValue) : JSValue :=
  if isNullish v then .undefined else getIndex0 v

/-! ## The widget state -/

/-- Calls the widget makes to its environment, in order. -/
inductive Effect where
  | fetch (url : String)
  | setInterval (handle : Nat) (ms : JSNum)
  | clearInterval (handle : Nat)
  | consoleError (message : String)
  deriving DecidableEq

/-- One widget instance together with the part of the browser it uses. -/
structure DogWidget where
  /-- Field `this._mode`. -/
  _mode : String
  /-- Field `this._refreshSeconds`. -/
  _refreshSeconds : JSNum
  /-- Field `this._timerId`, `none` for `null`. -/
  _timerId : Option Nat
  /-- The host attribute `mode`, `none` when absent. -/
  modeAttr : Option String
  /-- The host attribute `refresh`, `none` when absent. -/
  refreshAttr : Option String
  /-- The text `this._els.fact.textContent`. -/
  factText : String
  /-- The text `this._els.status.textContent`. -/
  statusText : String
  /-- The style property `this._els.button.style.display`. -/
  buttonDisplay : String
  /-- The property `this._els.button.disabled`. -/
  buttonDisabled : Bool
  /-- Whether the element is attached to the page. -/
  isConnected : Bool
  /-- Intervals registered with `setInterval` and not yet cleared: the handle
  and the delay passed to `setInterval`, in milliseconds. -/
  intervals : List (Nat × JSNum)
  /-- The handle the next `setInterval` returns. -/
  nextHandle : Nat
  /-- Requests issued by `fetch` that have not settled yet. -/
  inFlight : Nat
  /-- Calls made to the environment so far. -/
  log : List Effect
  deriving DecidableEq

/-- The configuration object of the constructor: its two properties, each
`undefined` when absent. -/
structure Options where
  mode : JSValue
  refresh : JSValue

/-- The endpoint requested by `_fetchFact`. -/
def factUrl : String := "https://dogapi.dog/api/v2/facts?limit=1"

/-- Status text while a request is running. -/
def loadingText : String := "Загружаем факт о собачке..."

/-- Status text after a failure. -/
def errorStatusText : String := "Ошибка загрузки факта"

/-- Fact text after a failure. -/
def errorFactText : String := "Не удалось загрузить факт о собачке. Попробуй ещё раз."

/-- Status text after a success in basic mode. -/
def basicStatusText : String := "Нажми \"Новый факт\", чтобы обновить"

/-- Status text after a success in auto mode. -/
def autoStatusText (P : NumConv) (seconds : JSNum) : String :=
  "Авто-обновление каждые " ++ P.numberToString seconds ++ " сек"

/-- How a request ends: the promise of `fetch` rejects, or it resolves to a
response with its `ok` flag, its status code and the outcome of
`response.json()` (a thrown parse error or the parsed value). -/
inductive FetchResult where
  | rejected (reason : String)
  | response (ok : Bool) (status : Nat) (json : Except String JSValue)

/-! ## Methods of the class -/

/-- Method `_stopTimer`. -/
def _stopTimer (s : DogWidget) : DogWidget :=
  match s._timerId with
  | some id =>
    { s with
      intervals := s.intervals.filter (fun t => decide (t.1 ≠ id))
      log := s.log ++ [Effect.clearInterval id]
      _timerId := none }
  | none => s

/-- Method `_startTimer`. -/
def _startTimer (s : DogWidget) : DogWidget :=
  let s1 := _stopTimer s
  let intervalMs := s1._refreshSeconds.mul (.fin 1000)
  { s1 with
    intervals := s1.intervals ++ [(s1.nextHandle, intervalMs)]
    nextHandle := s1.nextHandle + 1
    log := s1.log ++ [Effect.setInterval s1.nextHandle intervalMs]
    _timerId := some s1.nextHandle }

/-- Method `_restartTimer`. -/
def _restartTimer (s : DogWidget) : DogWidget :=
  if s._mode = "auto" then _startTimer s else s

/-- Method `_updateButtonVisibility`.  The guard on `this._els` always passes:
the constructor assigns `_els` before any callback can run. -/
def _updateButtonVisibility (s : DogWidget) : DogWidget :=
  if s._mode = "auto" then { s with buttonDisplay := "none" }
  else { s with buttonDisplay := "" }

/-- Method `_handleModeChange`. -/
def _handleModeChange (s : DogWidget) : DogWidget :=
  let s1 := if s._mode = "auto" then _startTimer s else _stopTimer s
  _updateButtonVisibility s1

/-- Method `attributeChangedCallback`. -/
def attributeChangedCallback (P : NumConv) (name : String)
    (oldValue newValue : Option String) (s : DogWidget) : DogWidget :=
  if oldValue = newValue then s
  else
    let s1 :=
      if name = "mode" then
        _handleModeChange
          { s with _mode := if newValue = some "auto" then "auto" else "basic" }
      else s
    if name = "refresh" then
      let seconds := attrNumber P newValue
      let s2 :=
        { s1 with
          _refreshSeconds :=
            if seconds.isFinite && seconds.gtZero then seconds else .fin 10 }
      if s2._mode = "auto" then _restartTimer s2 else s2
    else s1

/-- The list `observedAttributes`. -/
def observedAttributes : List String := ["mode", "refresh"]

/-- Host method `getAttribute`, for the two observed attributes (other
attributes are not part of the state). -/
def getAttribute (s : DogWidget) (name : String) : Option String :=
  if name = "mode" then s.modeAttr
  else if name = "refresh" then s.refreshAttr
  else none

/-- Store an attribute value in the state. -/
def storeAttribute (s : DogWidget) (name : String) (v : Option String) : DogWidget :=
  if name = "mode" then { s with modeAttr := v }
  else if name = "refresh" then { s with refreshAttr := v }
  else s

/-- Host method `setAttribute`: the attribute is stored and, for an observed
attribute, the change callback runs with the previous and the new value (also
when they are equal). -/
def setAttribute (P : NumConv) (name value : String) (s : DogWidget) : DogWidget :=
  if name ∈ observedAttributes then
    attributeChangedCallback P name (getAttribute s name) (some value)
      (storeAttribute s name (some value))
  else s

/-- Host method `removeAttribute`: nothing happens when the attribute is
absent; otherwise it is removed and the change callback runs with `null` as
the new value. -/
def removeAttribute (P : NumConv) (name : String) (s : DogWidget) : DogWidget :=
  if name ∈ observedAttributes then
    match getAttribute s name with
    | none => s
    | some old =>
      attributeChangedCallback P name (some old) none (storeAttribute s name none)
  else s

/-- Getter `mode`. -/
def get_mode (s : DogWidget) : String := s._mode

/-- Setter `mode`. -/
def set_mode (P : NumConv) (value : JSValue) (s : DogWidget) : DogWidget :=
  let normalized := if strictEqString value "auto" then "auto" else "basic"
  setAttribute P "mode" normalized s

/-- Getter `refresh`. -/
def get_refresh (s : DogWidget) : JSNum := s._refreshSeconds

/-- Setter `refresh`.  `Number(value)` is evaluated first: when it throws, the
setter throws (`Except.error`) and the widget is unchanged.  `String` is
applied to a number, which cannot throw. -/
def set_refresh (P : NumConv) (value : JSValue) (s : DogWidget) : Except String DogWidget :=
  match Number P value with
  | .error e => .error e
  | .ok seconds =>
    let finalValue := if seconds.isFinite && seconds.gtZero then seconds else .fin 10
    .ok (setAttribute P "refresh" (P.numberToString finalValue) s)

/-- Method `_fetchFact` up to its first `await`: the status shows the loading
text, the button is disabled and the request is issued.  The guard on
`this._els` always passes, as in `_updateButtonVisibility`. -/
def _fetchFact (s : DogWidget) : DogWidget :=
  { s with
    statusText := loadingText
    buttonDisabled := true
    inFlight := s.inFlight + 1
    log := s.log ++ [Effect.fetch factUrl] }

/-- The value `data?.data?.[0]?.attributes?.body`. -/
def factBody (data : JSValue) : JSValue :=
  optField (optField (optIndex0 (optField data "data")) "attributes") "body"

/-- The `try` block of `_fetchFact` after the request has settled: the state
it leaves, or the error it throws.  The assignment to `textContent` converts
the value to a string, which can throw. -/
def _fetchFact_try (P : NumConv) (r : FetchResult) (s : DogWidget) :
    Except String DogWidget :=
  match r with
  | .rejected reason => .error reason
  | .response ok status json =>
    if !ok then .error ("HTTP error " ++ toString status)
    else
      match json with
      | .error reason => .error reason
      | .ok data =>
        let body := factBody data
        if !truthy body then .error "Неверный формат ответа API"
        else
          match JSString P body with
          | .error e => .error e
          | .ok text =>
            .ok { s with
                  factText := text
                  statusText :=
                    if s._mode = "auto" then autoStatusText P s._refreshSeconds
                    else basicStatusText }

/-- Method `_fetchFact` from the moment the request settles: `try`, `catch`
and `finally`.  The result is `Except.error` when an exception leaves the
routine. -/
def _fetchFact_settle (P : NumConv) (r : FetchResult) (s : DogWidget) :
    Except String DogWidget :=
  let s0 := { s with inFlight := s.inFlight - 1 }
  let afterCatch : Except String DogWidget :=
    match _fetchFact_try P r s0 with
    | .ok s1 => .ok s1
    | .error err =>
      .ok { s0 with
            log := s0.log ++ [Effect.consoleError err]
            statusText := errorStatusText
            factText := errorFactText }
  match afterCatch with
  | .ok s2 => .ok { s2 with buttonDisabled := decide (s2._mode = "auto") }
  | .error err => .error err

/-- The widget after the first part of the constructor: the fields and the
shadow elements are set up, the options are not yet read. -/
def initialWidget : DogWidget :=
  { _mode := "basic"
    _refreshSeconds := .fin 10
    _timerId := none
    modeAttr := none
    refreshAttr := none
    factText := loadingText
    statusText := "Ожидание запроса к API"
    buttonDisplay := ""
    buttonDisabled := false
    isConnected := false
    intervals := []
    nextHandle := 1
    inFlight := 0
    log := [] }

/-- The constructor.  `options` is `none` when the argument is not an object
(or is `null`); the default argument is the object without properties.  The
constructor throws when the setter `refresh` does. -/
def construct (P : NumConv) (options : Option Options) : Except String DogWidget :=
  match options with
  | none => .ok initialWidget
  | some o =>
    let s1 := if truthy o.mode then set_mode P o.mode initialWidget else initialWidget
    if isNullish o.refresh then .ok s1 else set_refresh P o.refresh s1

/-- The end of `connectedCallback`, after the attributes are written: the
request, and in auto mode the timer and the button. -/
def connectedCallback_finish (s2 : DogWidget) : DogWidget :=
  let s3 := _fetchFact s2
  if s3._mode = "auto" then _updateButtonVisibility (_startTimer s3) else s3

/-- Method `connectedCallback`, run when the element is attached. -/
def connectedCallback (P : NumConv) (s : DogWidget) : Except String DogWidget :=
  let s0 := { s with isConnected := true }
  let s1 :=
    if (getAttribute s0 "mode").isNone then set_mode P (.string s0._mode) s0 else s0
  if (getAttribute s1 "refresh").isNone then
    match set_refresh P (.number s1._refreshSeconds) s1 with
    | .error e => .error e
    | .ok s2 => .ok (connectedCallback_finish s2)
  else .ok (connectedCallback_finish s1)

/-- Method `disconnectedCallback`, run when the element is detached. -/
def disconnectedCallback (s : DogWidget) : DogWidget :=
  _stopTimer { s with isConnected := false }

/-! ## Events and reachable states -/

/-- What can happen to a constructed widget. -/
inductive Event where
  | attach
  | detach
  | assignMode (v : JSValue)
  | assignRefresh (v : JSValue)
  | setAttr (name value : String)
  | removeAttr (name : String)
  | click
  | tick (handle : Nat)
  | settle (r : FetchResult)

/-- The effect of an event.  An event that cannot occur in the state leaves it
unchanged: attaching an attached element, detaching a detached one, a click on
a disabled button, a tick of an interval that is not live, the settling of a
request when none is in flight.  An assignment to `refresh` that throws leaves
the widget unchanged; `connectedCallback` and the settling of a request never
throw. -/
def applyEvent (P : NumConv) (e : Event) (s : DogWidget) : DogWidget :=
  match e with
  | .attach =>
    if s.isConnected then s
    else
      match connectedCallback P s with
      | .ok s1 => s1
      | .error _ => s
  | .detach => if s.isConnected then disconnectedCallback s else s
  | .assignMode v => set_mode P v s
  | .assignRefresh v =>
    match set_refresh P v s with
    | .ok s1 => s1
    | .error _ => s
  | .setAttr name value => setAttribute P name value s
  | .removeAttr name => removeAttribute P name s
  | .click => if s.buttonDisabled then s else _fetchFact s
  | .tick handle =>
    if handle ∈ s.intervals.map Prod.fst then _fetchFact s else s
  | .settle r =>
    if s.inFlight = 0 then s
    else
      match _fetchFact_settle P r s with
      | .ok s1 => s1
      | .error _ => s

/-- The states a widget can be in: the result of a constructor call that
returns, followed by any sequence of events.  An element created by the parser
with attributes is the constructor without options followed by one attribute
change per attribute, which is the order in which the browser runs the
callbacks. -/
inductive Reachable (P : NumConv) : DogWidget → Prop where
  | init (options : Option Options) (s : DogWidget) :
    construct P options = .ok s → Reachable P s
  | step (e : Event) (s : DogWidget) : Reachable P s → Reachable P (applyEvent P e s)

/-- Run a list of events from a state. -/
def run (P : NumConv) (es : List Event) (s : DogWidget) : DogWidget :=
  es.foldl (fun acc e => applyEvent P e acc) s

/-- Number of `fetch` calls in a log. -/
def fetchCount (log : List Effect) : Nat :=
  (log.filter (fun e => match e with | .fetch _ => true | _ => false)).length

/-- Number of `setInterval` and `clearInterval` calls in a log. -/
def timerCallCount (log : List Effect) : Nat :=
  (log.filter (fun e =>
    match e with
    | .setInterval _ _ => true
    | .clearInterval _ => true
    | _ => false)).length

/-! ## Notions used in the statements -/

/-- The state after a request settled with a usable fact, `text` being its
string form. -/
def successState (P : NumConv) (text : String) (s : DogWidget) : DogWidget :=
  { s with
    inFlight := s.inFlight - 1
    factText := text
    statusText :=
      if s._mode = "auto" then autoStatusText P s._refreshSeconds else basicStatusText
    buttonDisabled := decide (s._mode = "auto") }

/-- The state after a request settled in a failure, `err` being the error
caught and logged. -/
def failureState (err : String) (s : DogWidget) : DogWidget :=
  { s with
    inFlight := s.inFlight - 1
    log := s.log ++ [Effect.consoleError err]
    statusText := errorStatusText
    factText := errorFactText
    buttonDisabled := decide (s._mode = "auto") }

/-- The properties that hold in every reachable state; `c` is the attachment
flag the property `attached_auto` refers to. -/
structure InvG (P : NumConv) (c : Bool) (s : DogWidget) : Prop where
  /-- The field `_mode` holds one of the two mode names. -/
  mode_values : s._mode = "auto" ∨ s._mode = "basic"
  /-- The mode is auto exactly when the attribute holds that word. -/
  mode_attr : s._mode = "auto" ↔ s.modeAttr = some "auto"
  /-- The field `_refreshSeconds` is the normalised attribute value. -/
  refresh_attr :
    s._refreshSeconds =
      if (attrNumber P s.refreshAttr).isFinite && (attrNumber P s.refreshAttr).gtZero
      then attrNumber P s.refreshAttr else .fin 10
  /-- The live intervals are the stored handle, with the current period. -/
  timers :
    s.intervals =
      s._timerId.toList.map (fun h => (h, s._refreshSeconds.mul (.fin 1000)))
  /-- A stored handle implies auto mode. -/
  timer_mode : s._timerId ≠ none → s._mode = "auto"
  /-- An attached widget in auto mode has a stored handle. -/
  attached_auto : c = true → s._mode = "auto" → s._timerId ≠ none
  /-- The button is hidden exactly in auto mode. -/
  display : s.buttonDisplay = if s._mode = "auto" then "none" else ""

/-- The invariant, with the attachment flag of the state itself. -/
def Inv (P : NumConv) (s : DogWidget) : Prop := InvG P s.isConnected s

/-- The parts of the state that no attribute change touches. -/
def SameRequests (s s1 : DogWidget) : Prop :=
  fetchCount s1.log = fetchCount s.log ∧ s1.inFlight = s.inFlight ∧
  s1.factText = s.factText ∧ s1.statusText = s.statusText ∧
  s1.buttonDisabled = s.buttonDisabled

/-- The outcome of a change of mode to auto: one live interval, stored in
`_timerId` and with the current period, the button hidden, no request issued,
the refresh value kept. -/
def ArmedHidden (s s1 : DogWidget) : Prop :=
  get_mode s1 = "auto" ∧
  (∃ id, s1._timerId = some id ∧
    s1.intervals = [(id, (get_refresh s1).mul (.fin 1000))]) ∧
  s1.buttonDisplay = "none" ∧
  fetchCount s1.log = fetchCount s.log ∧ s1.inFlight = s.inFlight ∧
  get_refresh s1 = get_refresh s

/-- The outcome of a change of mode to basic: no live interval, no stored
handle, the button shown, no request issued, the refresh value kept. -/
def DisarmedShown (s s1 : DogWidget) : Prop :=
  get_mode s1 = "basic" ∧
  s1._timerId = none ∧ s1.intervals = [] ∧
  s1.buttonDisplay = "" ∧
  fetchCount s1.log = fetchCount s.log ∧ s1.inFlight = s.inFlight ∧
  get_refresh s1 = get_refresh s

/-- The failure outcome of a settled request, as seen from the state `s` in
which it settles: the routine returns normally, the fact area and the status
area show the fixed failure texts, the button is disabled exactly in auto
mode, and the mode is unchanged. -/
def FailureOutcome (s : DogWidget) (res : Except String DogWidget) : Prop :=
  ∃ s1, res = .ok s1 ∧ s1.factText = errorFactText ∧ s1.statusText = errorStatusText ∧
    (s1.buttonDisabled = true ↔ get_mode s = "auto") ∧ get_mode s1 = get_mode s

/-- The success outcome of a settled request: the routine returns normally,
the fact area shows `text`, the status area shows the message of the current
mode, the button is disabled exactly in auto mode, and the mode is
unchanged. -/
def SuccessOutcome (P : NumConv) (text : String) (s : DogWidget)
    (res : Except String DogWidget) : Prop :=
  ∃ s1, res = .ok s1 ∧ s1.factText = text ∧
    s1.statusText =
      (if get_mode s = "auto" then autoStatusText P (get_refresh s) else basicStatusText) ∧
    (s1.buttonDisabled = true ↔ get_mode s = "auto") ∧ get_mode s1 = get_mode s

/-- The constructor argument with mode auto and no refresh value. -/
def autoOptions : Options := ⟨.string "auto", .undefined⟩

/-- The constructor argument of the scenario: mode auto, refresh 5. -/
def autoFiveOptions : Options := ⟨.string "auto", .number (.fin 5)⟩

/-- A response body whose fact field holds the number 42. -/
def numberPayload : JSValue :=
  .object [("data", .array [.object [("attributes", .object [("body", .number (.fin 42))])]])]

/-- A response body whose fact field holds a sentence. -/
def factPayload : JSValue :=
  .object [("data",
    .array [.object [("attributes", .object [("body", .string "Dogs have three eyelids.")])]])]

/-- A response body without the fact field. -/
def emptyPayload : JSValue := .object [("data", .array [])]

/-- The normalisation of a refresh value in the words of the specification:
the number itself when it is finite and greater than 0, and 10 otherwise. -/
def specRefresh (n : JSNum) : JSNum :=
  if n.isFinite = true ∧ n.gtZero = true then n else .fin 10

/-- The state `connectedCallback` returns. -/
def connectedState (P : NumConv) (s : DogWidget) : DogWidget :=
  let s0 := { s with isConnected := true }
  let s1 :=
    if (getAttribute s0 "mode").isNone then set_mode P (.string s0._mode) s0 else s0
  connectedCallback_finish
    (if (getAttribute s1 "refresh").isNone then
      setAttribute P "refresh"
        (P.numberToString
          (if s1._refreshSeconds.isFinite && s1._refreshSeconds.gtZero then s1._refreshSeconds
           else .fin 10)) s1
    else s1)

/-- The widget a constructor call returns; the initial widget stands in when
the constructor throws. -/
def constructed (P : NumConv) (options : Option Options) : DogWidget :=
  match construct P options with
  | .ok s => s
  | .error _ => initialWidget

/-- The values on which `Number(v)` cannot throw: `undefined`, `null`,
booleans, numbers and strings. -/
def isPlainPrimitive : JSValue → Bool
  | .undefined => true
  | .null => true
  | .bool _ => true
  | .number _ => true
  | .string _ => true
  | _ => false

/-- An object with an own property `toString` that is not callable, as the
literal `{toString: 5}` or the JSON text `{"toString":5}` gives. -/
def throwingObject : JSValue := .object [("toString", .number (.fin 5))]

/-- A response body whose fact field holds an object that cannot be converted
to a string. -/
def throwingPayload : JSValue :=
  .object [("data", .array [.object [("attributes", .object [("body", throwingObject)])]])]

/-! ## Rounding to the nearest double -/

theorem bitLenAux_spec (f n : Nat) (h : n ≤ f) (hn : 0 < n) :
    n < 2 ^ bitLenAux f n ∧ 2 ^ bitLenAux f n ≤ 2 * n := by
  induction f generalizing n with
  | zero => omega
  | succ f ih =>
    have hne : n ≠ 0 := by omega
    simp only [bitLenAux, hne, if_false]
    by_cases h2 : n / 2 = 0
    · have : n = 1 := by omega
      subst this
      cases f <;> simp [bitLenAux]
    · have := ih (n / 2) (by omega) (by omega)
      rw [pow_succ]
      omega

theorem bitLen_spec (n : Nat) (hn : 0 < n) : n < 2 ^ bitLen n ∧ 2 ^ bitLen n ≤ 2 * n :=
  bitLenAux_spec n n le_rfl hn

theorem divRoundEven_mul (q d : Nat) (hd : 0 < d) : divRoundEven (q * d) d = q := by
  simp [divRoundEven, Nat.mul_mod_left, hd, Nat.mul_div_cancel _ hd]

theorem scaledRound_exact (n k b : Nat) (e : Int) (hb : 0 < b)
    (h : n * 2 ^ (-e).toNat = k * b * 2 ^ e.toNat) : scaledRound n b e = k := by
  unfold scaledRound
  split_ifs with h0
  · obtain ⟨E, rfl⟩ := Int.eq_ofNat_of_zero_le h0
    simp only [Int.toNat_ofNat, Int.toNat_neg_nat, pow_zero, mul_one] at h ⊢
    rw [h, mul_assoc]
    exact divRoundEven_mul k _ (by positivity)
  · obtain ⟨E, rfl⟩ := Int.exists_eq_neg_ofNat (le_of_lt (not_le.mp h0))
    simp only [neg_neg, Int.toNat_ofNat, Int.toNat_neg_nat, pow_zero, mul_one] at h ⊢
    rw [h]
    exact divRoundEven_mul k _ hb

theorem scaledRound_pred (n k b : Nat) (e : Int) (hb : 0 < b)
    (h : n * 2 ^ (-e).toNat = k * b * 2 ^ e.toNat) : scaledRound n b (e - 1) = 2 * k := by
  apply scaledRound_exact n (2 * k) b (e - 1) hb
  rcases le_or_lt 1 e with h1 | h1
  · obtain ⟨E, rfl⟩ := Int.eq_ofNat_of_zero_le (by omega : (0 : Int) ≤ e)
    have hE : 1 ≤ E := by omega
    obtain ⟨F, rfl⟩ : ∃ F, E = F + 1 := ⟨E - 1, by omega⟩
    have e1 : (-(((F + 1 : Nat) : Int) - 1)).toNat = 0 := by omega
    have e2 : ((((F + 1 : Nat) : Int) - 1)).toNat = F := by omega
    simp only [Int.toNat_ofNat, Int.toNat_neg_nat, pow_zero, mul_one] at h
    rw [e1, e2, pow_zero, mul_one, h, pow_succ]
    ring
  · obtain ⟨E, rfl⟩ := Int.exists_eq_neg_ofNat (by omega : e ≤ 0)
    have e1 : (-(-(E : Int) - 1)).toNat = E + 1 := by omega
    have e2 : (-(E : Int) - 1).toNat = 0 := by omega
    simp only [neg_neg, Int.toNat_ofNat, Int.toNat_neg_nat, pow_zero, mul_one] at h
    rw [e1, e2, pow_zero, mul_one, pow_succ, ← mul_assoc, h]
    ring

theorem pow_two_lt (x y : Nat) (h : 2 ^ x < 2 ^ y) : x < y :=
  (Nat.pow_lt_pow_iff_right (by norm_num : 1 < 2)).mp h

/-- The estimate of the exponent from the bit lengths is the exponent or one
below, and never above. -/
theorem exponent_estimate (n k b : Nat) (e : Int) (hb : 0 < b) (hk : 0 < k)
    (hk53 : k < 2 ^ 53) (h : n * 2 ^ (-e).toNat = k * b * 2 ^ e.toNat) :
    (bitLen n : Int) - (bitLen b : Int) - 53 ≤ e ∧
    (2 ^ 52 ≤ k → e - 1 ≤ (bitLen n : Int) - (bitLen b : Int) - 53) := by
  have hn : 0 < n := by
    rcases Nat.eq_zero_or_pos n with h0 | h0
    · subst h0
      have : 0 < k * b * 2 ^ e.toNat := by positivity
      omega
    · exact h0
  obtain ⟨n1, n2⟩ := bitLen_spec n hn
  obtain ⟨b1, b2⟩ := bitLen_spec b hb
  generalize bitLen n = p at n1 n2 ⊢
  generalize bitLen b = q at b1 b2 ⊢
  generalize hEp : e.toNat = Ep at h
  generalize hEm : (-e).toNat = Em at h
  have he : e = (Ep : Int) - (Em : Int) := by omega
  constructor
  · -- 2^(p + Em) ≤ 2 n 2^Em = 2 k b 2^Ep < 2^(54 + q + Ep)
    have : 2 ^ (p + Em) < 2 ^ (54 + q + Ep) := by
      calc 2 ^ (p + Em) = 2 ^ p * 2 ^ Em := by rw [pow_add]
        _ ≤ 2 * n * 2 ^ Em := Nat.mul_le_mul_right _ n2
        _ = 2 * (k * b * 2 ^ Ep) := by rw [← h]; ring
        _ < 2 * (2 ^ 53 * 2 ^ q * 2 ^ Ep) := by
            apply Nat.mul_lt_mul_of_pos_left _ (by norm_num)
            apply Nat.mul_lt_mul_of_pos_right _ (by positivity)
            exact Nat.mul_lt_mul'' hk53 b1
        _ = 2 ^ (54 + q + Ep) := by rw [pow_add, pow_add]; ring
    have := pow_two_lt _ _ this
    omega
  · intro hk52
    have : 2 ^ (52 + q + Ep) < 2 ^ (p + 1 + Em) := by
      calc 2 ^ (52 + q + Ep) = 2 ^ 52 * 2 ^ q * 2 ^ Ep := by rw [pow_add, pow_add]
        _ ≤ k * (2 * b) * 2 ^ Ep :=
            Nat.mul_le_mul_right _ (Nat.mul_le_mul hk52 b2)
        _ = 2 * (n * 2 ^ Em) := by rw [h]; ring
        _ < 2 * (2 ^ p * 2 ^ Em) := by
            apply Nat.mul_lt_mul_of_pos_left _ (by norm_num)
            exact Nat.mul_lt_mul_of_pos_right n1 (by positivity)
        _ = 2 ^ (p + 1 + Em) := by rw [pow_add, pow_add]; ring
    have := pow_two_lt _ _ this
    omega

theorem findExponent_exact (n k b : Nat) (e e0 : Int) (hb : 0 < b) (hk : 0 < k)
    (hk53 : k < 2 ^ 53) (hc : e = -1074 ∨ 2 ^ 52 ≤ k) (he : -1074 ≤ e)
    (h : n * 2 ^ (-e).toNat = k * b * 2 ^ e.toNat)
    (h0 : e0 = max ((bitLen n : Int) - (bitLen b : Int) - 53) (-1074)) :
    findExponent 3 n b e0 = (k, e) := by
  obtain ⟨up, low⟩ := exponent_estimate n k b e hb hk hk53 h
  have hx := scaledRound_exact n k b e hb h
  have hp := scaledRound_pred n k b e hb h
  rcases hc with hc | hc
  · have : e0 = e := by omega
    subst this
    simp only [findExponent, hx, if_pos hk53]
  · have low := low hc
    rcases (by omega : e0 = e ∨ e0 = e - 1) with h1 | h1
    · subst h1
      simp only [findExponent, hx, if_pos hk53]
    · subst h1
      have : ¬ (2 * k < 2 ^ 53) := by omega
      simp only [findExponent, hp, if_neg this, sub_add_cancel, hx, if_pos hk53]

theorem F64.canonical_iff (m e : Int) :
    F64.isCanonical m e = true ↔
      -1074 ≤ e ∧ e ≤ 971 ∧ m.natAbs < 2 ^ 53 ∧ (e = -1074 ∨ 2 ^ 52 ≤ m.natAbs) := by
  simp [F64.isCanonical, and_assoc]

/-- Rounding a fraction whose value is exactly a double gives that double. -/
theorem roundFrac_exact (d : F64) (a : Int) (b : Nat) (hb : 0 < b)
    (h : a * 2 ^ (-d.e).toNat = d.m * b * 2 ^ d.e.toNat) : roundFrac a b = .finite d := by
  obtain ⟨m, e, hcan⟩ := d
  have hcan2 := (F64.canonical_iff m e).mp hcan
  obtain ⟨he1, he2, hm53, hc⟩ := hcan2
  simp only at h
  by_cases hm0 : m = 0
  · subst hm0
    have ha : a = 0 := by
      have h2 : a * 2 ^ (-e).toNat = 0 := by rw [h]; simp
      rcases mul_eq_zero.mp h2 with h3 | h3
      · exact h3
      · exact absurd h3 (by positivity)
    have he : e = -1074 := by
      rcases hc with hc | hc
      · exact hc
      · simp at hc
    subst he
    simp [roundFrac, ha, F64.zero]
  · have ha : a ≠ 0 := by
      intro ha
      subst ha
      have h2 : m * ((b : Int) * 2 ^ e.toNat) = 0 := by rw [← mul_assoc, ← h]; simp
      rcases mul_eq_zero.mp h2 with h3 | h3
      · exact hm0 h3
      · exact absurd h3 (by positivity)
    have hsign : a < 0 ↔ m < 0 := by
      have p1 : (0 : Int) < 2 ^ (-e).toNat := by positivity
      have p2 : (0 : Int) < (b : Int) * 2 ^ e.toNat := by positivity
      rw [mul_assoc] at h
      constructor
      · intro ha0
        by_contra hm
        have : 0 ≤ m * ((b : Int) * 2 ^ e.toNat) := mul_nonneg (not_lt.mp hm) (le_of_lt p2)
        have : a * 2 ^ (-e).toNat < 0 := mul_neg_of_neg_of_pos ha0 p1
        omega
      · intro hm
        by_contra ha0
        have : 0 ≤ a * 2 ^ (-e).toNat := mul_nonneg (not_lt.mp ha0) (le_of_lt p1)
        have : m * ((b : Int) * 2 ^ e.toNat) < 0 := mul_neg_of_neg_of_pos hm p2
        omega
    have hnat : a.natAbs * 2 ^ (-e).toNat = m.natAbs * b * 2 ^ e.toNat := by
      have := congrArg Int.natAbs h
      simpa [Int.natAbs_mul, Int.natAbs_pow] using this
    have hk : 0 < m.natAbs := Int.natAbs_pos.mpr hm0
    have hf := findExponent_exact a.natAbs m.natAbs b e _ hb hk hm53 hc he1 hnat rfl
    have hmval : (if a < 0 then -((m.natAbs : Nat) : Int) else ((m.natAbs : Nat) : Int)) = m := by
      by_cases ha0 : a < 0
      · have := hsign.mp ha0
        simp only [ha0, if_true]
        omega
      · have : ¬ m < 0 := fun hm => ha0 (hsign.mpr hm)
        simp only [ha0, if_false]
        omega
    simp only [roundFrac, ha, if_false, hf, hmval, not_lt.mpr he2, hcan, dite_true]

/-! ## Rounding is to nearest, ties to even -/

theorem divRoundEven_spec (n d : Nat) (hd : 0 < d) :
    2 * (divRoundEven n d * d) ≤ 2 * n + d ∧ 2 * n ≤ 2 * (divRoundEven n d * d) + d ∧
    ((2 * (divRoundEven n d * d) = 2 * n + d ∨ 2 * n = 2 * (divRoundEven n d * d) + d) →
      divRoundEven n d % 2 = 0) := by
  have h1 := Nat.div_add_mod n d
  have h2 := Nat.mod_lt n hd
  generalize hq : n / d = q at h1
  generalize hr : n % d = r at h1 h2
  have e1 : (q + 1) * d = d * q + d := by ring
  have e0 : q * d = d * q := by ring
  unfold divRoundEven
  rw [hq, hr]
  split_ifs with c1 c2 c3
  · rw [e0]; refine ⟨by omega, by omega, fun h => ?_⟩; omega
  · rw [e1]; refine ⟨by omega, by omega, fun h => ?_⟩; omega
  · rw [e0]; refine ⟨by omega, by omega, fun _ => c3⟩
  · rw [e1]; refine ⟨by omega, by omega, fun _ => ?_⟩; omega

/-- The rounded quotient is within one half of the quotient, and even when it
is at one half exactly. -/
theorem divRoundEven_near (n d : Nat) (hd : 0 < d) :
    |(n : ℚ) / d - divRoundEven n d| ≤ 1 / 2 ∧
    (|(n : ℚ) / d - divRoundEven n d| = 1 / 2 → divRoundEven n d % 2 = 0) := by
  obtain ⟨h1, h2, h3⟩ := divRoundEven_spec n d hd
  generalize divRoundEven n d = q at h1 h2 h3
  have hdq : (0 : ℚ) < d := by exact_mod_cast hd
  have c1 : (2 : ℚ) * (q * d) ≤ 2 * n + d := by exact_mod_cast h1
  have c2 : (2 : ℚ) * n ≤ 2 * (q * d) + d := by exact_mod_cast h2
  have key : (n : ℚ) / d - q = ((n : ℚ) - q * d) / d := by field_simp; ring
  rw [key, abs_div, abs_of_pos hdq]
  constructor
  · rw [div_le_iff₀ hdq, abs_le]
    constructor <;> linarith
  · intro h
    rw [div_eq_iff (ne_of_gt hdq)] at h
    apply h3
    rcases abs_cases ((n : ℚ) - q * d) with ⟨ha, _⟩ | ⟨ha, _⟩
    · right
      have : (2 : ℚ) * n = 2 * (q * d) + d := by linarith
      exact_mod_cast this
    · left
      have : (2 : ℚ) * (q * d) = 2 * n + d := by linarith
      exact_mod_cast this

/-- The mantissa computed at exponent `e` is within one half of the scaled
value, and even when it is at one half exactly. -/
theorem scaledRound_near (n b : Nat) (e : Int) (hb : 0 < b) :
    |(n : ℚ) / b / (2 : ℚ) ^ e - scaledRound n b e| ≤ 1 / 2 ∧
    (|(n : ℚ) / b / (2 : ℚ) ^ e - scaledRound n b e| = 1 / 2 → scaledRound n b e % 2 = 0) := by
  unfold scaledRound
  split_ifs with h0
  · obtain ⟨E, rfl⟩ := Int.eq_ofNat_of_zero_le h0
    have := divRoundEven_near n (b * 2 ^ E) (by positivity)
    simp only [Int.toNat_ofNat, zpow_natCast]
    have e1 : (n : ℚ) / b / 2 ^ E = (n : ℚ) / ((b * 2 ^ E : Nat) : ℚ) := by
      push_cast; rw [div_div]
    rw [e1]; exact this
  · obtain ⟨E, rfl⟩ := Int.exists_eq_neg_ofNat (le_of_lt (not_le.mp h0))
    have := divRoundEven_near (n * 2 ^ E) b hb
    simp only [neg_neg, Int.toNat_ofNat, zpow_neg, zpow_natCast]
    have e1 : (n : ℚ) / b / (2 ^ E)⁻¹ = ((n * 2 ^ E : Nat) : ℚ) / b := by
      push_cast; field_simp
    rw [e1]; exact this

theorem scaled_succ (x : ℚ) (e : Int) : x / (2 : ℚ) ^ (e + 1) = x / (2 : ℚ) ^ e / 2 := by
  rw [zpow_add_one₀ (by norm_num : (2 : ℚ) ≠ 0), div_mul_eq_div_div]

theorem scaled_pred (x : ℚ) (e : Int) : x / (2 : ℚ) ^ (e - 1) = x / (2 : ℚ) ^ e * 2 := by
  have := scaled_succ x (e - 1)
  rw [sub_add_cancel] at this
  rw [this]; ring

/-- A natural number within one half of a value of at least `2^53 - 1/2` is at
least `2^53`, unless it is odd. -/
theorem round_ge (y : ℚ) (k : Nat) (c : Nat) (h : |y - k| ≤ 1 / 2) (hy : (c : ℚ) ≤ y) :
    c ≤ k := by
  have := (abs_le.mp h).2
  have h2 : (c : ℚ) < (k : ℚ) + 1 := by linarith
  have : c < k + 1 := by exact_mod_cast h2
  omega

theorem round_le (y : ℚ) (k : Nat) (c : Nat) (h : |y - k| ≤ 1 / 2) (hy : y ≤ (c : ℚ)) :
    k ≤ c := by
  have := (abs_le.mp h).1
  have h2 : (k : ℚ) < (c : ℚ) + 1 := by linarith
  have : k < c + 1 := by exact_mod_cast h2
  omega

/-- The scaled value at the exponent estimated from the bit lengths lies below
`2^54`, and one exponent lower it lies above `2^53`. -/
theorem estimate_bounds (n b : Nat) (hn : 0 < n) (hb : 0 < b) :
    (n : ℚ) / b / (2 : ℚ) ^ ((bitLen n : Int) - (bitLen b : Int) - 53) < 2 ^ 54 ∧
    (2 : ℚ) ^ 53 < (n : ℚ) / b / (2 : ℚ) ^ ((bitLen n : Int) - (bitLen b : Int) - 53 - 1) := by
  obtain ⟨n1, n2⟩ := bitLen_spec n hn
  obtain ⟨b1, b2⟩ := bitLen_spec b hb
  generalize bitLen n = p at n1 n2 ⊢
  generalize bitLen b = q at b1 b2 ⊢
  have hbq : (0 : ℚ) < b := by exact_mod_cast hb
  have two : (2 : ℚ) ≠ 0 := by norm_num
  have n1q : (n : ℚ) < 2 ^ p := by exact_mod_cast n1
  have n2q : (2 : ℚ) ^ p ≤ 2 * n := by exact_mod_cast n2
  have b1q : (b : ℚ) < 2 ^ q := by exact_mod_cast b1
  have b2q : (2 : ℚ) ^ q ≤ 2 * b := by exact_mod_cast b2
  have hp : (0 : ℚ) < 2 ^ p := by positivity
  have hq : (0 : ℚ) < 2 ^ q := by positivity
  have e1 : (2 : ℚ) ^ ((p : Int) - (q : Int) - 53) = 2 ^ p / 2 ^ q / 2 ^ 53 := by
    rw [zpow_sub₀ two, zpow_sub₀ two]; norm_cast
  have e2 : (2 : ℚ) ^ ((p : Int) - (q : Int) - 53 - 1) = 2 ^ p / 2 ^ q / 2 ^ 54 := by
    rw [zpow_sub₀ two, e1]; norm_num; ring
  rw [e1, e2]
  have k1 : (n : ℚ) * 2 ^ q < 2 * 2 ^ p * b := by
    calc (n : ℚ) * 2 ^ q < 2 ^ p * 2 ^ q := mul_lt_mul_of_pos_right n1q hq
      _ ≤ 2 ^ p * (2 * b) := mul_le_mul_of_nonneg_left b2q (le_of_lt hp)
      _ = 2 * 2 ^ p * b := by ring
  have k2 : (2 : ℚ) ^ p * b < 2 * n * 2 ^ q := by
    calc (2 : ℚ) ^ p * b < 2 ^ p * 2 ^ q := mul_lt_mul_of_pos_left b1q hp
      _ ≤ 2 * n * 2 ^ q := mul_le_mul_of_nonneg_right n2q (le_of_lt hq)
  constructor
  · rw [div_lt_iff₀ (by positivity), div_lt_iff₀ hbq]
    have e3 : (2 : ℚ) ^ 54 * (2 ^ p / 2 ^ q / 2 ^ 53) * b = 2 * 2 ^ p * b / 2 ^ q := by
      field_simp; ring
    rw [e3, lt_div_iff₀ hq]
    exact k1
  · rw [lt_div_iff₀ (by positivity), lt_div_iff₀ hbq]
    have e3 : (2 : ℚ) ^ 53 * (2 ^ p / 2 ^ q / 2 ^ 54) * b = 2 ^ p * b / 2 ^ q / 2 := by
      field_simp; ring
    rw [e3, div_lt_iff₀ (by norm_num), div_lt_iff₀ hq]
    linarith

theorem scaled_anti (x : ℚ) (hx : 0 ≤ x) (e1 e2 : Int) (h : e1 ≤ e2) :
    x / (2 : ℚ) ^ e2 ≤ x / (2 : ℚ) ^ e1 := by
  apply div_le_div_of_nonneg_left hx (by positivity)
  exact zpow_le_zpow_right₀ (by norm_num) h

theorem round_big (n b : Nat) (e : Int) (hb : 0 < b) (h : ¬ scaledRound n b e < 2 ^ 53) :
    (2 : ℚ) ^ 53 - 1 / 2 ≤ (n : ℚ) / b / (2 : ℚ) ^ e := by
  have h1 := (abs_le.mp (scaledRound_near n b e hb).1).1
  have h2 : (2 : ℚ) ^ 53 ≤ scaledRound n b e := by exact_mod_cast not_lt.mp h
  linarith

/-- The exponent search ends at the least exponent, from -1074 on, at which
the rounded mantissa is below `2^53`. -/
theorem findExponent_spec (n b : Nat) (hn : 0 < n) (hb : 0 < b) (k : Nat) (e : Int)
    (h : findExponent 3 n b (max ((bitLen n : Int) - (bitLen b : Int) - 53) (-1074)) = (k, e)) :
    k = scaledRound n b e ∧ -1074 ≤ e ∧ k < 2 ^ 53 ∧
    (e = -1074 ∨ (2 : ℚ) ^ 53 - 1 / 2 ≤ (n : ℚ) / b / (2 : ℚ) ^ (e - 1)) := by
  obtain ⟨u1, u2⟩ := estimate_bounds n b hn hb
  have hx : (0 : ℚ) ≤ (n : ℚ) / b := by positivity
  generalize hE : (bitLen n : Int) - (bitLen b : Int) - 53 = E at h u1 u2
  generalize he0 : max E (-1074) = e0 at h
  have f1 : (n : ℚ) / b / (2 : ℚ) ^ e0 < 2 ^ 54 :=
    lt_of_le_of_lt (scaled_anti _ hx E e0 (by omega)) u1
  have f2 : e0 = -1074 ∨ (2 : ℚ) ^ 53 - 1 / 2 ≤ (n : ℚ) / b / (2 : ℚ) ^ (e0 - 1) := by
    rcases (by omega : e0 = -1074 ∨ e0 = E) with c | c
    · exact Or.inl c
    · right; rw [c]; linarith
  have f3 : -1074 ≤ e0 := by omega
  simp only [findExponent] at h
  split_ifs at h with c0 c1 c2
  · injection h with h1 h2
    subst h1 h2
    exact ⟨rfl, f3, c0, f2⟩
  · injection h with h1 h2
    subst h1 h2
    refine ⟨rfl, by omega, c1, Or.inr ?_⟩
    rw [add_sub_cancel_right]
    exact round_big n b e0 hb c0
  · injection h with h1 h2
    subst h1 h2
    refine ⟨rfl, by omega, c2, Or.inr ?_⟩
    have : e0 + 1 + 1 - 1 = e0 + 1 := by ring
    rw [this]
    exact round_big n b (e0 + 1) hb c1
  · exfalso
    have := round_big n b (e0 + 1 + 1) hb c2
    rw [scaled_succ, scaled_succ] at this
    norm_num at this f1
    linarith

/-- An integer within one half of a value is a nearest integer, and another
integer is as near only at one half. -/
theorem nearest_int (y : ℚ) (k j : Int) (h : |y - k| ≤ 1 / 2) :
    |y - k| ≤ |y - j| ∧ (|y - k| = |y - j| → j = k ∨ |y - k| = 1 / 2) := by
  by_cases hjk : j = k
  · subst hjk
    exact ⟨le_refl _, fun _ => Or.inl rfl⟩
  · have h1 : (1 : ℚ) ≤ |(j : ℚ) - k| := by
      have : (1 : Int) ≤ |j - k| := Int.one_le_abs (sub_ne_zero.mpr hjk)
      exact_mod_cast this
    have h2 : |(j : ℚ) - k| ≤ |y - k| + |y - j| := by
      have := abs_sub_le (j : ℚ) y k
      rw [abs_sub_comm (j : ℚ) y] at this
      linarith
    refine ⟨by linarith, fun he => Or.inr ?_⟩
    linarith

theorem abs_scaled (x v s : ℚ) (hs : 0 < s) : |x - v * s| = s * |x / s - v| := by
  have : x - v * s = s * (x / s - v) := by field_simp; ring
  rw [this, abs_mul, abs_of_pos hs]

/-- The value of a double with a lower exponent, in units of `2^e`, is at most
`2^52 - 1/2`. -/
theorem lower_exponent_bound (m e e1 : Int) (hm : m.natAbs < 2 ^ 53) (h : e1 < e) :
    (m : ℚ) * (2 : ℚ) ^ e1 / (2 : ℚ) ^ e ≤ 2 ^ 52 - 1 / 2 := by
  have two : (2 : ℚ) ≠ 0 := by norm_num
  have h1 : (m : ℚ) ≤ 2 ^ 53 - 1 := by
    have : m ≤ 2 ^ 53 - 1 := by omega
    exact_mod_cast this
  have h2 : (2 : ℚ) ^ e1 / (2 : ℚ) ^ e ≤ 1 / 2 := by
    rw [← zpow_sub₀ two]
    have : (2 : ℚ) ^ (e1 - e) ≤ (2 : ℚ) ^ (-1 : Int) :=
      zpow_le_zpow_right₀ (by norm_num) (by omega)
    simpa using this
  have h3 : (0 : ℚ) < (2 : ℚ) ^ e1 / (2 : ℚ) ^ e := by positivity
  rw [mul_div_assoc]
  by_cases hm0 : (m : ℚ) ≤ 0
  · have : (m : ℚ) * ((2 : ℚ) ^ e1 / (2 : ℚ) ^ e) ≤ 0 :=
      mul_nonpos_of_nonpos_of_nonneg hm0 (le_of_lt h3)
    linarith [show (0 : ℚ) ≤ 2 ^ 52 - 1 / 2 by norm_num]
  · calc (m : ℚ) * ((2 : ℚ) ^ e1 / (2 : ℚ) ^ e)
        ≤ (2 ^ 53 - 1) * (1 / 2) :=
          mul_le_mul h1 h2 (le_of_lt h3) (by norm_num)
      _ = 2 ^ 52 - 1 / 2 := by norm_num

/-- The value of a double with a higher or equal exponent, in units of `2^e`,
is an integer; it is the mantissa when the exponents are equal, and otherwise
a canonical mantissa gives an integer of magnitude at least `2^53`. -/
theorem higher_exponent_int (m e e1 : Int) (h : e ≤ e1) :
    (m : ℚ) * (2 : ℚ) ^ e1 / (2 : ℚ) ^ e = ((m * 2 ^ (e1 - e).toNat : Int) : ℚ) := by
  have two : (2 : ℚ) ≠ 0 := by norm_num
  rw [mul_div_assoc, ← zpow_sub₀ two]
  obtain ⟨d, hd⟩ := Int.eq_ofNat_of_zero_le (by omega : (0 : Int) ≤ e1 - e)
  rw [hd]
  push_cast
  simp

/-- The mantissa `k` and exponent `e` found by the search are those of the
double nearest to `x`, a tie going to the even mantissa: `k` is the integer
nearest to `x / 2^e`, below `2^53`, and `e` is -1074 or the scaled value one
exponent lower reaches `2^53 - 1/2`. -/
theorem nearest_core (x : ℚ) (k : Nat) (e : Int)
    (hnear : |x / (2 : ℚ) ^ e - k| ≤ 1 / 2)
    (heven : |x / (2 : ℚ) ^ e - k| = 1 / 2 → k % 2 = 0)
    (hk : k < 2 ^ 53) (he : -1074 ≤ e)
    (hlow : e = -1074 ∨ (2 : ℚ) ^ 53 - 1 / 2 ≤ x / (2 : ℚ) ^ (e - 1)) :
    (e = -1074 ∨ 2 ^ 52 ≤ k) ∧ x / (2 : ℚ) ^ e < 2 ^ 53 - 1 / 2 ∧
    ∀ m1 e1 : Int, -1074 ≤ e1 → m1.natAbs < 2 ^ 53 → (e1 = -1074 ∨ 2 ^ 52 ≤ m1.natAbs) →
      |x - k * (2 : ℚ) ^ e| ≤ |x - m1 * (2 : ℚ) ^ e1| ∧
      (|x - k * (2 : ℚ) ^ e| = |x - m1 * (2 : ℚ) ^ e1| → (m1 = k ∧ e1 = e) ∨ k % 2 = 0) := by
  have hs : (0 : ℚ) < (2 : ℚ) ^ e := by positivity
  have hpred := scaled_pred x e
  generalize hy : x / (2 : ℚ) ^ e = y at hnear heven hpred
  obtain ⟨n1, n2⟩ := abs_le.mp hnear
  have part1 : e ≠ -1074 → (2 : ℚ) ^ 52 - 1 / 4 ≤ y ∧ 2 ^ 52 ≤ k := by
    intro hne
    rcases hlow with h | h
    · exact absurd h hne
    · rw [hpred] at h
      have hy4 : (2 : ℚ) ^ 52 - 1 / 4 ≤ y := by norm_num at h ⊢; linarith
      refine ⟨hy4, ?_⟩
      have : ((2 ^ 52 : Nat) : ℚ) < ((k + 1 : Nat) : ℚ) := by push_cast; linarith
      have : 2 ^ 52 < k + 1 := by exact_mod_cast this
      omega
  have part2 : y < 2 ^ 53 - 1 / 2 := by
    by_contra hc
    have hc := not_lt.mp hc
    have : ((2 ^ 53 : Nat) : ℚ) ≤ ((k + 1 : Nat) : ℚ) := by push_cast; linarith
    have hk1 : 2 ^ 53 ≤ k + 1 := by exact_mod_cast this
    have hk2 : k + 1 = 2 ^ 53 := by omega
    have hkq : (k : ℚ) + 1 = 2 ^ 53 := by exact_mod_cast hk2
    have : |y - k| = 1 / 2 := by
      rw [abs_of_nonneg (by linarith)]
      linarith
    have := heven this
    omega
  refine ⟨?_, part2, ?_⟩
  · by_cases hne : e = -1074
    · exact Or.inl hne
    · exact Or.inr (part1 hne).2
  intro m1 e1 h1 h2 h3
  have hv : (m1 : ℚ) * (2 : ℚ) ^ e1 = (m1 : ℚ) * (2 : ℚ) ^ e1 / (2 : ℚ) ^ e * (2 : ℚ) ^ e := by
    field_simp
  rw [abs_scaled x k _ hs, hv, abs_scaled x _ _ hs, hy]
  have hcancel : ∀ a b : ℚ, (2 : ℚ) ^ e * a = (2 : ℚ) ^ e * b → a = b :=
    fun a b h => mul_left_cancel₀ (ne_of_gt hs) h
  by_cases hle : e ≤ e1
  · rw [higher_exponent_int m1 e e1 hle]
    have hkz : (k : ℚ) = ((k : Int) : ℚ) := by push_cast; rfl
    rw [hkz] at hnear ⊢
    obtain ⟨a1, a2⟩ := nearest_int y k (m1 * 2 ^ (e1 - e).toNat) hnear
    refine ⟨mul_le_mul_of_nonneg_left a1 (le_of_lt hs), fun heq => ?_⟩
    rcases a2 (hcancel _ _ heq) with hj | ht
    · by_cases hee : e1 = e
      · left
        subst hee
        simp at hj
        exact ⟨hj, rfl⟩
      · exfalso
        have hm : 2 ^ 52 ≤ m1.natAbs := by
          rcases h3 with h3 | h3
          · omega
          · exact h3
        obtain ⟨d, hd⟩ : ∃ d : Nat, (e1 - e).toNat = d + 1 := ⟨(e1 - e).toNat - 1, by omega⟩
        rw [hd] at hj
        have := congrArg Int.natAbs hj
        rw [Int.natAbs_mul, Int.natAbs_pow, Int.natAbs_ofNat] at this
        have h2d : 2 ≤ (2 : Nat) ^ (d + 1) := by
          calc 2 = 2 ^ 1 := by norm_num
            _ ≤ 2 ^ (d + 1) := Nat.pow_le_pow_right (by norm_num) (by omega)
        have : 2 ^ 52 * 2 ≤ k := by
          rw [← this]
          exact Nat.mul_le_mul hm (by simpa using h2d)
        omega
    · right
      apply heven
      rw [hkz]; exact ht
  · have hlt : e1 < e := not_le.mp hle
    obtain ⟨hy4, hk52⟩ := part1 (by omega)
    have hvb := lower_exponent_bound m1 e e1 h2 hlt
    generalize (m1 : ℚ) * (2 : ℚ) ^ e1 / (2 : ℚ) ^ e = v at hvb ⊢
    have hpos : 0 < y - v := by linarith
    rw [abs_of_pos hpos]
    by_cases hy52 : (2 : ℚ) ^ 52 ≤ y
    · have hkz : (k : ℚ) = ((k : Int) : ℚ) := by push_cast; rfl
      have b1 := (nearest_int y k (2 ^ 52) (by rw [← hkz]; exact hnear)).1
      rw [← hkz] at b1
      have b2 : |y - ((2 ^ 52 : Int) : ℚ)| = y - 2 ^ 52 := by
        push_cast
        exact abs_of_nonneg (by linarith)
      have b3 : |y - k| < y - v := by
        rw [b2] at b1
        linarith
      refine ⟨mul_le_mul_of_nonneg_left (le_of_lt b3) (le_of_lt hs), fun heq => ?_⟩
      exact absurd (hcancel _ _ heq) (ne_of_lt b3)
    · have hy52 := not_le.mp hy52
      have hk2 : k ≤ 2 ^ 52 := by
        have : ((k : Nat) : ℚ) < ((2 ^ 52 + 1 : Nat) : ℚ) := by push_cast; linarith
        have : k < 2 ^ 52 + 1 := by exact_mod_cast this
        omega
      have hkeq : k = 2 ^ 52 := by omega
      have hkq : (k : ℚ) = 2 ^ 52 := by exact_mod_cast hkeq
      have b3 : |y - k| ≤ y - v := by
        rw [abs_le]
        constructor <;> linarith
      refine ⟨mul_le_mul_of_nonneg_left b3 (le_of_lt hs), fun _ => Or.inr ?_⟩
      omega

theorem overflowBound_pos : 0 < overflowBound := by
  unfold overflowBound
  exact mul_pos (by norm_num) (by positivity)

theorem F64.ext_of (d1 d2 : F64) (hm : d1.m = d2.m) (he : d1.e = d2.e) : d1 = d2 := by
  cases d1; cases d2
  simp only at hm he
  subst hm he
  rfl

theorem roundFrac_form (a : Int) (b : Nat) (ha : a ≠ 0) (k : Nat) (e : Int)
    (hf : findExponent 3 a.natAbs b
      (max ((bitLen a.natAbs : Int) - (bitLen b : Int) - 53) (-1074)) = (k, e)) :
    (971 < e → roundFrac a b = if a < 0 then .negInf else .posInf) ∧
    (e ≤ 971 → ∀ hc : F64.isCanonical (if a < 0 then -(k : Int) else (k : Int)) e = true,
      roundFrac a b = .finite ⟨if a < 0 then -(k : Int) else (k : Int), e, hc⟩) := by
  constructor
  · intro h
    simp only [roundFrac, ha, if_false, hf, h, if_true]
  · intro h hc
    simp only [roundFrac, ha, if_false, hf, not_lt.mpr h, hc, dite_true]

/-- The function `roundFrac` rounds to nearest, ties to even: a finite result
is a double nearest to the fraction among all doubles, with an even mantissa
when another double is as near, and the fraction is below the overflow bound;
an infinite result means that the fraction reaches the bound.  The result is
never NaN. -/
theorem roundFrac_nearest (a : Int) (b : Nat) (hb : 0 < b) :
    (∀ d, roundFrac a b = .finite d →
      |(a : ℚ) / b| < overflowBound ∧
      ∀ d1 : F64, |(a : ℚ) / b - d.toRat| ≤ |(a : ℚ) / b - d1.toRat| ∧
        (|(a : ℚ) / b - d.toRat| = |(a : ℚ) / b - d1.toRat| → d1 = d ∨ d.m % 2 = 0)) ∧
    (roundFrac a b = .posInf → overflowBound ≤ (a : ℚ) / b) ∧
    (roundFrac a b = .negInf → (a : ℚ) / b ≤ -overflowBound) ∧
    roundFrac a b ≠ .nan := by
  by_cases ha : a = 0
  · subst ha
    have hz : roundFrac 0 b = .finite F64.zero := by simp [roundFrac]
    rw [hz]
    refine ⟨fun d hd => ?_, fun h => ?_, fun h => ?_, fun h => ?_⟩
    · injection hd with hd
      subst hd
      refine ⟨by simpa using overflowBound_pos, fun d1 => ?_⟩
      simp [F64.toRat, F64.zero]
    · cases h
    · cases h
    · cases h
  · have hn : 0 < a.natAbs := Int.natAbs_pos.mpr ha
    obtain ⟨⟨k, e⟩, hf⟩ : ∃ r, findExponent 3 a.natAbs b
        (max ((bitLen a.natAbs : Int) - (bitLen b : Int) - 53) (-1074)) = r := ⟨_, rfl⟩
    obtain ⟨s1, s2, s3, s4⟩ := findExponent_spec a.natAbs b hn hb k e hf
    obtain ⟨near1, near2⟩ := scaledRound_near a.natAbs b e hb
    rw [← s1] at near1 near2
    obtain ⟨c1, c2, c3⟩ := nearest_core ((a.natAbs : ℚ) / b) k e near1 near2 s3 s2 s4
    obtain ⟨f1, f2⟩ := roundFrac_form a b ha k e hf
    have hbq : (0 : ℚ) < b := by exact_mod_cast hb
    have hxpos : (0 : ℚ) < (a.natAbs : ℚ) / b := by positivity
    have two : (2 : ℚ) ≠ 0 := by norm_num
    have hsign : (a : ℚ) / b = if a < 0 then -((a.natAbs : ℚ) / b) else (a.natAbs : ℚ) / b := by
      split_ifs with h0
      · have : a = -(a.natAbs : Int) := by omega
        have hq : (a : ℚ) = ((-(a.natAbs : Int) : Int) : ℚ) := congrArg Int.cast this
        rw [hq, Int.cast_neg, Int.cast_natCast, neg_div]
      · have : a = (a.natAbs : Int) := by omega
        have hq : (a : ℚ) = (((a.natAbs : Int) : Int) : ℚ) := congrArg Int.cast this
        rw [hq, Int.cast_natCast]
    generalize (a.natAbs : ℚ) / b = x at near1 near2 c2 c3 hxpos hsign s4
    rcases lt_or_le 971 e with he | he
    · have hinf := f1 he
      have hbig : overflowBound ≤ x := by
        rcases s4 with s4 | s4
        · omega
        · rw [le_div_iff₀ (by positivity)] at s4
          refine le_trans ?_ s4
          unfold overflowBound
          apply mul_le_mul_of_nonneg_left _ (by norm_num)
          exact zpow_le_zpow_right₀ (by norm_num) (by omega)
      rw [hinf, hsign]
      by_cases h0 : a < 0
      · simp only [h0, if_true]
        refine ⟨fun d hd => ?_, fun h => ?_, fun _ => ?_, fun h => ?_⟩
        · cases hd
        · cases h
        · linarith
        · cases h
      · simp only [h0, if_false]
        refine ⟨fun d hd => ?_, fun _ => hbig, fun h => ?_, fun h => ?_⟩
        · cases hd
        · cases h
        · cases h
    · have hcan : F64.isCanonical (if a < 0 then -(k : Int) else (k : Int)) e = true := by
        rw [F64.canonical_iff]
        refine ⟨s2, he, ?_, ?_⟩
        · split_ifs <;> simpa using s3
        · rcases c1 with c1 | c1
          · exact Or.inl c1
          · right; split_ifs <;> simpa using c1
      rw [f2 he hcan]
      refine ⟨fun d hd => ?_, fun h => ?_, fun h => ?_, fun h => ?_⟩
      rotate_left
      · cases h
      · cases h
      · cases h
      injection hd with hd
      subst hd
      have hsmall : x < overflowBound := by
        rw [div_lt_iff₀ (by positivity)] at c2
        refine lt_of_lt_of_le c2 ?_
        unfold overflowBound
        apply mul_le_mul_of_nonneg_left _ (by norm_num)
        exact zpow_le_zpow_right₀ (by norm_num) he
      constructor
      · rw [hsign]
        split_ifs
        · rw [abs_neg, abs_of_pos hxpos]; exact hsmall
        · rw [abs_of_pos hxpos]; exact hsmall
      · intro d1
        obtain ⟨m1, e1, hc1⟩ := d1
        obtain ⟨g1, g2, g3, g4⟩ := (F64.canonical_iff m1 e1).mp hc1
        simp only [F64.toRat]
        by_cases h0 : a < 0
        · simp only [h0, if_true] at hsign ⊢
          obtain ⟨q1, q2⟩ := c3 (-m1) e1 g1 (by simpa using g3) (by simpa using g4)
          have r1 : (a : ℚ) / b - ((-(k : Int) : Int) : ℚ) * (2 : ℚ) ^ e =
              -(x - (k : ℚ) * (2 : ℚ) ^ e) := by rw [hsign]; push_cast; ring
          have r2 : (a : ℚ) / b - (m1 : ℚ) * (2 : ℚ) ^ e1 =
              -(x - ((-m1 : Int) : ℚ) * (2 : ℚ) ^ e1) := by rw [hsign]; push_cast; ring
          rw [r1, r2, abs_neg, abs_neg]
          refine ⟨q1, fun heq => ?_⟩
          rcases q2 heq with ⟨u1, u2⟩ | u
          · left
            apply F64.ext_of
            · simp only; omega
            · exact u2
          · right; omega
        · simp only [h0, if_false] at hsign ⊢
          obtain ⟨q1, q2⟩ := c3 m1 e1 g1 g3 g4
          rw [hsign]
          push_cast
          refine ⟨q1, fun heq => ?_⟩
          rcases q2 heq with ⟨u1, u2⟩ | u
          · left
            exact F64.ext_of _ _ u1 u2
          · right; omega

theorem roundFrac_roundsTo (a : Int) (b : Nat) (hb : 0 < b) :
    RoundsTo ((a : ℚ) / b) (roundFrac a b) := by
  obtain ⟨h1, h2, h3, h4⟩ := roundFrac_nearest a b hb
  cases h : roundFrac a b with
  | nan => exact absurd h h4
  | posInf => exact h2 h
  | negInf => exact h3 h
  | finite d => exact h1 d h

theorem roundScaled_roundsTo (m e : Int) : RoundsTo ((m : ℚ) * (2 : ℚ) ^ e) (roundScaled m e) := by
  unfold roundScaled
  split_ifs with h0
  · obtain ⟨E, rfl⟩ := Int.eq_ofNat_of_zero_le h0
    have := roundFrac_roundsTo (m * 2 ^ E) 1 (by norm_num)
    simp only [Int.toNat_ofNat]
    have e1 : (((m * 2 ^ E : Int) : ℚ)) / ((1 : Nat) : ℚ) = (m : ℚ) * (2 : ℚ) ^ ((E : Nat) : Int) := by
      push_cast; simp
    rw [e1] at this
    exact this
  · obtain ⟨E, rfl⟩ := Int.exists_eq_neg_ofNat (le_of_lt (not_le.mp h0))
    have := roundFrac_roundsTo m (2 ^ E) (by positivity)
    simp only [neg_neg, Int.toNat_ofNat]
    have e1 : (m : ℚ) / ((2 ^ E : Nat) : ℚ) = (m : ℚ) * (2 : ℚ) ^ (-((E : Nat) : Int)) := by
      push_cast; rw [zpow_neg, zpow_natCast, div_eq_mul_inv]
    rw [e1] at this
    exact this

/-- The product of two finite doubles is the exact product of their values
rounded to nearest, ties to even, with overflow to an infinity. -/
theorem mul_roundsTo (x y : F64) :
    RoundsTo (x.toRat * y.toRat) ((JSNum.finite x).mul (JSNum.finite y)) := by
  have := roundScaled_roundsTo (x.m * y.m) (x.e + y.e)
  have e1 : x.toRat * y.toRat = ((x.m * y.m : Int) : ℚ) * (2 : ℚ) ^ (x.e + y.e) := by
    unfold F64.toRat
    rw [zpow_add₀ (by norm_num : (2 : ℚ) ≠ 0)]
    push_cast
    ring
  rw [e1]
  exact this

/-- A numeric literal denotes the double nearest to its value. -/
theorem fin_roundsTo (q : ℚ) : RoundsTo q (JSNum.fin q) := by
  have := roundFrac_roundsTo q.num q.den q.den_pos
  rw [Rat.num_div_den] at this
  exact this

theorem fin_thousand : ∃ d : F64, JSNum.fin 1000 = .finite d ∧ d.toRat = 1000 := by
  refine ⟨⟨8796093022208000, -43, by decide⟩, by decide, ?_⟩
  unfold F64.toRat
  norm_num

/-! ## Decimal digits -/

theorem digitChar_toNat (d : Nat) (h : d < 10) : (digitChar d).toNat - 48 = d := by
  interval_cases d <;> rfl

theorem digitChar_isDigit (d : Nat) (h : d < 10) : (digitChar d).isDigit = true := by
  interval_cases d <;> rfl

theorem decimalAux_foldl (f n : Nat) (acc : List Char) (h : n < f) :
    (decimalAux f n acc).foldl (fun a c => a * 10 + (c.toNat - 48)) 0 =
      acc.foldl (fun a c => a * 10 + (c.toNat - 48)) n := by
  induction f generalizing n acc with
  | zero => omega
  | succ f ih =>
    unfold decimalAux
    split_ifs with h10
    · simp [List.foldl, digitChar_toNat n h10]
    · rw [ih (n / 10) _ (by omega)]
      simp only [List.foldl, digitChar_toNat (n % 10) (Nat.mod_lt _ (by norm_num))]
      congr 1
      omega

theorem digitsVal_decimalChars (n : Nat) : digitsVal (decimalChars n) = n := by
  unfold digitsVal decimalChars
  rw [decimalAux_foldl (n + 1) n [] (by omega)]
  rfl

theorem decimalAux_all (f n : Nat) (acc : List Char) (hacc : ∀ c ∈ acc, c.isDigit = true) :
    ∀ c ∈ decimalAux f n acc, c.isDigit = true := by
  induction f generalizing n acc with
  | zero => exact hacc
  | succ f ih =>
    unfold decimalAux
    split_ifs with h10
    · intro c hc
      rcases List.mem_cons.mp hc with h | h
      · rw [h]; exact digitChar_isDigit n h10
      · exact hacc c h
    · apply ih
      intro c hc
      rcases List.mem_cons.mp hc with h | h
      · rw [h]; exact digitChar_isDigit _ (Nat.mod_lt _ (by norm_num))
      · exact hacc c h

theorem decimalChars_all (n : Nat) : ∀ c ∈ decimalChars n, c.isDigit = true :=
  decimalAux_all (n + 1) n [] (by simp)

theorem decimalAux_ne_nil (f n : Nat) (acc : List Char) (h : n < f) :
    decimalAux f n acc ≠ [] := by
  induction f generalizing n acc with
  | zero => omega
  | succ f ih =>
    unfold decimalAux
    split_ifs with h10
    · simp
    · exact ih _ _ (by omega)

theorem decimalChars_ne_nil (n : Nat) : decimalChars n ≠ [] :=
  decimalAux_ne_nil (n + 1) n [] (by omega)

theorem isDigit_val (c : Char) (h : c.isDigit = true) : c.toNat - 48 ≤ 9 := by
  simp [Char.isDigit] at h
  have h2 : c.val ≤ 57 := h.2
  have : c.toNat ≤ 57 := h2
  omega

theorem foldl_digits_bound (l : List Char) (h : ∀ c ∈ l, c.isDigit = true) (v : Nat) :
    l.foldl (fun a c => a * 10 + (c.toNat - 48)) v < (v + 1) * 10 ^ l.length := by
  induction l generalizing v with
  | nil => simp
  | cons c l ih =>
    simp only [List.foldl, List.length_cons]
    have hc := isDigit_val c (h c (List.mem_cons_self _ _))
    have := ih (fun x hx => h x (List.mem_cons_of_mem _ hx)) (v * 10 + (c.toNat - 48))
    calc _ < (v * 10 + (c.toNat - 48) + 1) * 10 ^ l.length := this
      _ ≤ ((v + 1) * 10) * 10 ^ l.length := Nat.mul_le_mul_right _ (by omega)
      _ = (v + 1) * 10 ^ (l.length + 1) := by rw [pow_succ]; ring

theorem lt_pow_length (n : Nat) : n < 10 ^ (decimalChars n).length := by
  have := foldl_digits_bound (decimalChars n) (decimalChars_all n) 0
  have e := digitsVal_decimalChars n
  unfold digitsVal at e
  rw [e] at this
  simpa using this

theorem digitsVal_append (l1 l2 : List Char) :
    digitsVal (l1 ++ l2) =
      l2.foldl (fun a c => a * 10 + (c.toNat - 48)) (digitsVal l1) := by
  simp [digitsVal, List.foldl_append]

theorem foldl_zeros (j v : Nat) :
    (List.replicate j '0').foldl (fun a c => a * 10 + (c.toNat - 48)) v = v * 10 ^ j := by
  induction j generalizing v with
  | zero => simp
  | succ j ih =>
    simp only [List.replicate_succ, List.foldl]
    rw [ih]
    have : ('0' : Char).toNat - 48 = 0 := rfl
    rw [this, pow_succ]
    ring

theorem digitsVal_append_zeros (l : List Char) (j : Nat) :
    digitsVal (l ++ List.replicate j '0') = digitsVal l * 10 ^ j := by
  rw [digitsVal_append, foldl_zeros]

theorem digitsVal_zeros_append (j : Nat) (l : List Char) :
    digitsVal ('0' :: (List.replicate j '0' ++ l)) = digitsVal l := by
  have : ('0' : Char) :: (List.replicate j '0' ++ l) = List.replicate (j + 1) '0' ++ l := by
    simp [List.replicate_succ]
  rw [this, digitsVal_append]
  have : digitsVal (List.replicate (j + 1) '0') = 0 := by
    unfold digitsVal
    rw [foldl_zeros]
    simp
  rw [this]
  rfl

theorem roundsTo_zero (q : ℚ) (h0 : 0 ≤ q) (h : 2 * q ≤ (2 : ℚ) ^ (-1074 : Int)) :
    RoundsTo q (.finite F64.zero) := by
  have hz : F64.zero.toRat = 0 := by simp [F64.toRat, F64.zero]
  have hb : (2 : ℚ) ^ (-1074 : Int) < overflowBound := by
    unfold overflowBound
    have h1 : (2 : ℚ) ^ (-1074 : Int) ≤ (2 : ℚ) ^ (971 : Int) :=
      zpow_le_zpow_right₀ (by norm_num) (by norm_num)
    have h2 : (0 : ℚ) < (2 : ℚ) ^ (971 : Int) := by positivity
    nlinarith
  have hp : (0 : ℚ) < (2 : ℚ) ^ (-1074 : Int) := by positivity
  refine ⟨?_, fun d1 => ⟨?_, fun _ => Or.inr rfl⟩⟩
  · rw [abs_of_nonneg h0]; linarith
  · rw [hz, sub_zero, abs_of_nonneg h0]
    obtain ⟨m1, e1, hc⟩ := d1
    obtain ⟨g1, -, -, -⟩ := (F64.canonical_iff m1 e1).mp hc
    simp only [F64.toRat]
    by_cases hm : m1 = 0
    · subst hm; simp [abs_of_nonneg h0]
    · have h1 : (1 : ℚ) ≤ |(m1 : ℚ)| := by
        have : (1 : Int) ≤ |m1| := Int.one_le_abs hm
        exact_mod_cast this
      have h2 : (2 : ℚ) ^ (-1074 : Int) ≤ (2 : ℚ) ^ e1 :=
        zpow_le_zpow_right₀ (by norm_num) g1
      have h3 : (2 : ℚ) ^ (-1074 : Int) ≤ |(m1 : ℚ) * (2 : ℚ) ^ e1| := by
        rw [abs_mul, abs_of_pos (by positivity : (0 : ℚ) < (2 : ℚ) ^ e1)]
        calc (2 : ℚ) ^ (-1074 : Int) = 1 * (2 : ℚ) ^ (-1074 : Int) := by ring
          _ ≤ |(m1 : ℚ)| * (2 : ℚ) ^ e1 := mul_le_mul h1 h2 (le_of_lt hp) (abs_nonneg _)
      have h4 := abs_sub_abs_le_abs_sub ((m1 : ℚ) * (2 : ℚ) ^ e1) q
      rw [abs_sub_comm, abs_of_nonneg h0] at h4
      linarith

/-- The value of a decimal literal with digits `S` and exponent `P` is rounded
to nearest, ties to even. -/
theorem roundDecimal_roundsTo (S : Nat) (P : Int) :
    RoundsTo ((S : ℚ) * (10 : ℚ) ^ P) (roundDecimal S P) := by
  unfold roundDecimal
  have ten : (10 : ℚ) ≠ 0 := by norm_num
  split_ifs with h1 h2 h3 h4
  · subst h1
    exact roundsTo_zero _ (by simp) (by simp; positivity)
  · show overflowBound ≤ _
    have hS : (1 : ℚ) ≤ S := by exact_mod_cast Nat.one_le_iff_ne_zero.mpr h1
    have hP : (10 : ℚ) ^ (401 : Int) ≤ (10 : ℚ) ^ P :=
      zpow_le_zpow_right₀ (by norm_num) (by omega)
    have hb : overflowBound ≤ (10 : ℚ) ^ (401 : Int) := by
      unfold overflowBound
      norm_num
    calc overflowBound ≤ 1 * (10 : ℚ) ^ (401 : Int) := by rw [one_mul]; exact hb
      _ ≤ (S : ℚ) * (10 : ℚ) ^ P := mul_le_mul hS hP (by positivity) (by positivity)
  · apply roundsTo_zero _ (by positivity)
    have hl := lt_pow_length S
    generalize (decimalChars S).length = len at h3 hl
    have hlq : (S : ℚ) ≤ (10 : ℚ) ^ ((len : Nat) : Int) := by
      rw [zpow_natCast]; exact_mod_cast le_of_lt hl
    have h5 : (S : ℚ) * (10 : ℚ) ^ P ≤ (10 : ℚ) ^ (-401 : Int) := by
      calc (S : ℚ) * (10 : ℚ) ^ P ≤ (10 : ℚ) ^ ((len : Nat) : Int) * (10 : ℚ) ^ P :=
            mul_le_mul_of_nonneg_right hlq (by positivity)
        _ = (10 : ℚ) ^ ((len : Int) + P) := by rw [zpow_add₀ ten]
        _ ≤ (10 : ℚ) ^ (-401 : Int) := zpow_le_zpow_right₀ (by norm_num) (by omega)
    have h6 : 2 * (10 : ℚ) ^ (-401 : Int) ≤ (2 : ℚ) ^ (-1074 : Int) := by
      norm_num
    linarith
  · obtain ⟨E, rfl⟩ := Int.eq_ofNat_of_zero_le h4
    have := roundFrac_roundsTo ((S * 10 ^ E : Nat) : Int) 1 (by norm_num)
    simp only [Int.toNat_ofNat]
    have e1 : ((((S * 10 ^ E : Nat) : Int) : ℚ)) / ((1 : Nat) : ℚ) =
        (S : ℚ) * (10 : ℚ) ^ ((E : Nat) : Int) := by
      push_cast; simp
    rw [e1] at this
    exact this
  · obtain ⟨E, rfl⟩ := Int.exists_eq_neg_ofNat (le_of_lt (not_le.mp h4))
    have := roundFrac_roundsTo (S : Int) (10 ^ E) (by positivity)
    simp only [neg_neg, Int.toNat_ofNat]
    have e1 : (((S : Int) : ℚ)) / ((10 ^ E : Nat) : ℚ) =
        (S : ℚ) * (10 : ℚ) ^ (-((E : Nat) : Int)) := by
      push_cast; rw [zpow_neg, zpow_natCast, div_eq_mul_inv]
    rw [e1] at this
    exact this

/-! ## Reading the text of a number -/

theorem breakAt_append (p : Char → Bool) (xs ys : List Char) (c : Char)
    (hx : ∀ x ∈ xs, p x = false) (hc : p c = true) :
    breakAt p (xs ++ c :: ys) = (xs, some ys) := by
  induction xs with
  | nil => simp [breakAt, hc]
  | cons x xs ih =>
    have hx0 : p x = false := hx x (List.mem_cons_self _ _)
    have := ih (fun y hy => hx y (List.mem_cons_of_mem _ hy))
    simp [breakAt, hx0, this]

theorem breakAt_none (p : Char → Bool) (xs : List Char) (hx : ∀ x ∈ xs, p x = false) :
    breakAt p xs = (xs, none) := by
  induction xs with
  | nil => simp [breakAt]
  | cons x xs ih =>
    have hx0 : p x = false := hx x (List.mem_cons_self _ _)
    have := ih (fun y hy => hx y (List.mem_cons_of_mem _ hy))
    simp [breakAt, hx0, this]

theorem digit_not_e (c : Char) (h : c.isDigit = true) : (c == 'e' || c == 'E') = false := by
  have h1 : c ≠ 'e' := by
    intro hc; subst hc; revert h; decide
  have h2 : c ≠ 'E' := by
    intro hc; subst hc; revert h; decide
  simp [h1, h2]

theorem digit_not_dot (c : Char) (h : c.isDigit = true) : (c == '.') = false := by
  by_contra hc
  simp at hc
  subst hc; revert h; decide

theorem dot_not_e : (('.' : Char) == 'e' || ('.' : Char) == 'E') = false := by decide

theorem isDecimalDigits_of (l : List Char) (h : ∀ c ∈ l, c.isDigit = true) (hne : l ≠ []) :
    isDecimalDigits l = true := by
  cases l with
  | nil => exact absurd rfl hne
  | cons a t =>
    simp only [isDecimalDigits, List.isEmpty_cons, Bool.not_false, Bool.true_and,
      List.all_eq_true]
    exact h

theorem parseExponent_plus (N : Nat) :
    parseExponent ('+' :: decimalChars N) = some (N : Int) := by
  simp [parseExponent, isDecimalDigits_of _ (decimalChars_all N) (decimalChars_ne_nil N),
    digitsVal_decimalChars]

theorem parseExponent_minus (N : Nat) :
    parseExponent ('-' :: decimalChars N) = some (-(N : Int)) := by
  simp [parseExponent, isDecimalDigits_of _ (decimalChars_all N) (decimalChars_ne_nil N),
    digitsVal_decimalChars]

theorem parseExponent_signed (x : Int) :
    parseExponent ((if x < 0 then '-' else '+') :: decimalChars x.natAbs) = some x := by
  split_ifs with h
  · rw [parseExponent_minus]; congr 1; omega
  · rw [parseExponent_plus]; congr 1; omega

theorem ne_infinity (ip rest : List Char) (hip : ∀ c ∈ ip, c.isDigit = true) (hne : ip ≠ []) :
    ip ++ rest ≠ "Infinity".data := by
  cases ip with
  | nil => exact absurd rfl hne
  | cons a t =>
    intro h
    have ha := hip a (List.mem_cons_self _ _)
    have : a = 'I' := by
      have := congrArg List.head? h
      simpa using this
    subst this
    revert ha; decide

/-- Digits without point or exponent. -/
theorem parse_digits (ip : List Char) (hip : ∀ c ∈ ip, c.isDigit = true) (hne : ip ≠ []) :
    parseUnsignedDecimal ip = some (roundDecimal (digitsVal ip) 0) := by
  have hinf : ip ≠ "Infinity".data := by simpa using ne_infinity ip [] hip hne
  have he := breakAt_none (fun c => c == 'e' || c == 'E') ip (fun c hc => digit_not_e c (hip c hc))
  have hd := breakAt_none (fun c => c == '.') ip (fun c hc => digit_not_dot c (hip c hc))
  have hall : ip.all Char.isDigit = true := List.all_eq_true.mpr hip
  have hemp : ip.isEmpty = false := by cases ip <;> simp_all
  simp [parseUnsignedDecimal, hinf, he, hd, hall, hemp]

/-- Digits with a point. -/
theorem parse_point (ip fp : List Char) (hip : ∀ c ∈ ip, c.isDigit = true)
    (hfp : ∀ c ∈ fp, c.isDigit = true) (hne : ip ≠ []) :
    parseUnsignedDecimal (ip ++ '.' :: fp) =
      some (roundDecimal (digitsVal (ip ++ fp)) (-(fp.length : Int))) := by
  have hinf := ne_infinity ip ('.' :: fp) hip hne
  have he := breakAt_none (fun c => c == 'e' || c == 'E') (ip ++ '.' :: fp) (by
    intro c hc
    rcases List.mem_append.mp hc with h | h
    · exact digit_not_e c (hip c h)
    · rcases List.mem_cons.mp h with h | h
      · rw [h]; exact dot_not_e
      · exact digit_not_e c (hfp c h))
  have hd := breakAt_append (fun c => c == '.') ip fp '.'
    (fun c hc => digit_not_dot c (hip c hc)) (by decide)
  have h1 : ip.all Char.isDigit = true := List.all_eq_true.mpr hip
  have h2 : fp.all Char.isDigit = true := List.all_eq_true.mpr hfp
  have hemp : ip.isEmpty = false := by cases ip <;> simp_all
  simp [parseUnsignedDecimal, hinf, he, hd, h1, h2, hemp, hne]

/-- Digits with an exponent. -/
theorem parse_exp (ip ecs : List Char) (x : Int) (hip : ∀ c ∈ ip, c.isDigit = true)
    (hne : ip ≠ []) (hx : parseExponent ecs = some x) :
    parseUnsignedDecimal (ip ++ 'e' :: ecs) = some (roundDecimal (digitsVal ip) x) := by
  have hinf := ne_infinity ip ('e' :: ecs) hip hne
  have he := breakAt_append (fun c => c == 'e' || c == 'E') ip ecs 'e'
    (fun c hc => digit_not_e c (hip c hc)) (by decide)
  have hd := breakAt_none (fun c => c == '.') ip (fun c hc => digit_not_dot c (hip c hc))
  have h1 : ip.all Char.isDigit = true := List.all_eq_true.mpr hip
  have hemp : ip.isEmpty = false := by cases ip <;> simp_all
  simp [parseUnsignedDecimal, hinf, he, hd, h1, hemp, hx]

/-- Digits with a point and an exponent. -/
theorem parse_point_exp (ip fp ecs : List Char) (x : Int)
    (hip : ∀ c ∈ ip, c.isDigit = true) (hfp : ∀ c ∈ fp, c.isDigit = true) (hne : ip ≠ [])
    (hx : parseExponent ecs = some x) :
    parseUnsignedDecimal (ip ++ '.' :: (fp ++ 'e' :: ecs)) =
      some (roundDecimal (digitsVal (ip ++ fp)) (x - (fp.length : Int))) := by
  have hinf := ne_infinity ip ('.' :: (fp ++ 'e' :: ecs)) hip hne
  have he := breakAt_append (fun c => c == 'e' || c == 'E') (ip ++ '.' :: fp) ecs 'e' (by
    intro c hc
    rcases List.mem_append.mp hc with h | h
    · exact digit_not_e c (hip c h)
    · rcases List.mem_cons.mp h with h | h
      · rw [h]; exact dot_not_e
      · exact digit_not_e c (hfp c h)) (by decide)
  have hd := breakAt_append (fun c => c == '.') ip fp '.'
    (fun c hc => digit_not_dot c (hip c hc)) (by decide)
  have h1 : ip.all Char.isDigit = true := List.all_eq_true.mpr hip
  have h2 : fp.all Char.isDigit = true := List.all_eq_true.mpr hfp
  have hemp : ip.isEmpty = false := by cases ip <;> simp_all
  have e : ip ++ '.' :: (fp ++ 'e' :: ecs) = (ip ++ '.' :: fp) ++ 'e' :: ecs := by simp
  rw [← e] at he
  simp only [parseUnsignedDecimal, hinf, if_false, he, hd]
  simp [h1, h2, hemp, hx, hne]

theorem dropWhile_none (p : Char → Bool) (l : List Char) (h : ∀ c ∈ l, p c = false) :
    l.dropWhile p = l := by
  cases l with
  | nil => rfl
  | cons a t => simp [List.dropWhile, h a (List.mem_cons_self _ _)]

theorem trim_plain (l : List Char) (h : ∀ c ∈ l, isStrWhiteSpace c = false) :
    trimWhiteSpace l = l := by
  unfold trimWhiteSpace
  rw [dropWhile_none _ l h, dropWhile_none _ l.reverse (fun c hc => h c (List.mem_reverse.mp hc)),
    List.reverse_reverse]

theorem digit_range (c : Char) (h : c.isDigit = true) : 48 ≤ c.toNat ∧ c.toNat ≤ 57 := by
  simp [Char.isDigit] at h
  exact ⟨h.1, h.2⟩

theorem plain_not_ws (c : Char) (h : isPlain c = true) : isStrWhiteSpace c = false := by
  simp only [isPlain, Bool.or_eq_true, beq_iff_eq] at h
  rcases h with (((h | h) | h) | h) | h
  · have := digit_range c h
    simp only [isStrWhiteSpace, Bool.or_eq_false_iff, decide_eq_false_iff_not,
      Bool.and_eq_false_imp, decide_eq_true_eq]
    constructor
    · simp only [List.mem_cons, List.mem_singleton, List.not_mem_nil, or_false]
      omega
    · omega
  all_goals (subst h; decide)

theorem radixLiteral_plain (l : List Char) (h : ∀ c ∈ l, isPlain c = true) :
    radixLiteral l = none := by
  match l with
  | [] => rfl
  | [_] => rfl
  | c0 :: c1 :: ds =>
    have h1 : isPlain c1 = true := h c1 (by simp)
    have n1 : c1 ≠ 'x' := by intro e; subst e; revert h1; decide
    have n2 : c1 ≠ 'X' := by intro e; subst e; revert h1; decide
    have n3 : c1 ≠ 'o' := by intro e; subst e; revert h1; decide
    have n4 : c1 ≠ 'O' := by intro e; subst e; revert h1; decide
    have n5 : c1 ≠ 'b' := by intro e; subst e; revert h1; decide
    have n6 : c1 ≠ 'B' := by intro e; subst e; revert h1; decide
    simp [radixLiteral, n1, n2, n3, n4, n5, n6]

theorem parseNumeric_digit_head (a : Char) (t : List Char) (ha : a.isDigit = true)
    (h : ∀ c ∈ a :: t, isPlain c = true) :
    parseNumeric (a :: t) = (parseUnsignedDecimal (a :: t)).getD .nan := by
  have n1 : a ≠ '+' := by intro e; subst e; revert ha; decide
  have n2 : a ≠ '-' := by intro e; subst e; revert ha; decide
  unfold parseNumeric
  rw [radixLiteral_plain _ h]
  simp only []
  split
  · rename_i heq; injection heq with h1 h2; exact absurd h1 n1
  · rename_i heq; injection heq with h1 h2; exact absurd h1 n2
  · rfl

/-- The text of a number whose first character is a digit reads as the
unsigned decimal literal it is. -/
theorem stringToNumber_text (a : Char) (t : List Char) (ha : a.isDigit = true)
    (h : ∀ c ∈ a :: t, isPlain c = true) :
    stringToNumber (String.mk (a :: t)) = (parseUnsignedDecimal (a :: t)).getD .nan := by
  unfold stringToNumber
  simp only []
  rw [trim_plain _ (fun c hc => plain_not_ws c (h c hc))]
  simp only [List.isEmpty_cons, Bool.false_eq_true, if_false]
  exact parseNumeric_digit_head a t ha h

theorem digit_plain (c : Char) (h : c.isDigit = true) : isPlain c = true := by
  simp [isPlain, h]

theorem text_reads (ip rest : List Char) (v : JSNum) (hip : ∀ c ∈ ip, c.isDigit = true)
    (hne : ip ≠ []) (hrest : ∀ c ∈ rest, isPlain c = true)
    (hp : parseUnsignedDecimal (ip ++ rest) = some v) :
    stringToNumber (String.mk (ip ++ rest)) = v := by
  cases ip with
  | nil => exact absurd rfl hne
  | cons a t =>
    have ha := hip a (List.mem_cons_self _ _)
    have hall : ∀ c ∈ a :: (t ++ rest), isPlain c = true := by
      intro c hc
      rcases List.mem_cons.mp hc with h | h
      · rw [h]; exact digit_plain a ha
      · rcases List.mem_append.mp h with h | h
        · exact digit_plain c (hip c (List.mem_cons_of_mem _ h))
        · exact hrest c h
    have := stringToNumber_text a (t ++ rest) ha hall
    simp only [List.cons_append] at hp ⊢
    rw [this, hp]
    rfl

theorem roundDecimal_shift (s j : Nat) (hj : j ≤ 400) :
    roundDecimal (s * 10 ^ j) 0 = roundDecimal s (j : Int) := by
  unfold roundDecimal
  by_cases hs : s = 0
  · simp [hs]
  · have h1 : s * 10 ^ j ≠ 0 := by positivity
    have h2 : ¬ ((400 : Int) < (j : Int)) := by omega
    have h3 : ¬ ((0 : Int) + ((decimalChars (s * 10 ^ j)).length : Int) < -400) := by omega
    have h4 : ¬ ((j : Int) + ((decimalChars s).length : Int) < -400) := by omega
    have h5 : (0 : Int) ≤ (j : Int) := by omega
    simp only [hs, h1, if_false, h2, h3, h4, h5, if_true, le_refl, Int.toNat_zero, pow_zero,
      mul_one, Int.toNat_ofNat]
    norm_num

theorem sign_plain (x : Int) : isPlain (if x < 0 then '-' else '+') = true := by
  split_ifs <;> decide

/-- The text `Number::toString` lays out for digits `s` and exponent `n` reads
back, by `StringToNumber`, as the double nearest to the value of the digits. -/
theorem format_reads (s : Nat) (n : Int) :
    stringToNumber (String.mk (formatDecimal s n)) = decimalValue (s, n) := by
  have hds := decimalChars_all s
  have hne := decimalChars_ne_nil s
  have hval := digitsVal_decimalChars s
  have hx := parseExponent_signed (n - 1)
  have hsp := sign_plain (n - 1)
  unfold formatDecimal decimalValue
  simp only []
  generalize decimalChars s = ds at hds hne hval
  generalize (if n - 1 < 0 then '-' else '+') = sg at hx hsp
  have hk : 0 < ds.length := List.length_pos.mpr hne
  split_ifs with c1 c2 c3 c4
  · -- plain digits followed by zeros
    obtain ⟨j, hj⟩ : ∃ j : Nat, n - (ds.length : Int) = j := ⟨(n - ds.length).toNat, by omega⟩
    have hall : ∀ c ∈ ds ++ List.replicate j '0', c.isDigit = true := by
      intro c hc
      rcases List.mem_append.mp hc with h | h
      · exact hds c h
      · rw [(List.mem_replicate.mp h).2]; rfl
    have := text_reads (ds ++ List.replicate j '0') [] _ hall (by simp [hne]) (by simp)
      (by simpa using parse_digits _ hall (by simp [hne]))
    rw [hj]
    simp only [Int.toNat_ofNat, List.append_nil] at this ⊢
    rw [this, digitsVal_append_zeros, hval, roundDecimal_shift s j (by omega)]
  · -- digits with a point inside
    have hn : n.toNat < ds.length := by omega
    have h1 : ∀ c ∈ ds.take n.toNat, c.isDigit = true :=
      fun c hc => hds c (List.mem_of_mem_take hc)
    have h2 : ∀ c ∈ ds.drop n.toNat, c.isDigit = true :=
      fun c hc => hds c (List.mem_of_mem_drop hc)
    have h3 : ds.take n.toNat ≠ [] := by
      intro h
      have := congrArg List.length h
      rw [List.length_take, List.length_nil] at this
      omega
    have hp := parse_point _ _ h1 h2 h3
    rw [List.take_append_drop, hval] at hp
    have := text_reads (ds.take n.toNat) ('.' :: ds.drop n.toNat) _ h1 h3 (by
      intro c hc
      rcases List.mem_cons.mp hc with h | h
      · rw [h]; decide
      · exact digit_plain c (h2 c h)) hp
    have e : (-((ds.drop n.toNat).length : Int)) = n - (ds.length : Int) := by
      rw [List.length_drop]
      push_cast [Nat.cast_sub (le_of_lt hn)]
      omega
    rw [this, e]
  · -- zero, point, zeros, digits
    have h1 : ∀ c ∈ ['0'], c.isDigit = true := by
      intro c hc; rw [List.mem_singleton.mp hc]; rfl
    have h2 : ∀ c ∈ List.replicate (-n).toNat '0' ++ ds, c.isDigit = true := by
      intro c hc
      rcases List.mem_append.mp hc with h | h
      · rw [(List.mem_replicate.mp h).2]; rfl
      · exact hds c h
    have hp := parse_point _ _ h1 h2 (by simp)
    have := text_reads ['0'] ('.' :: (List.replicate (-n).toNat '0' ++ ds)) _ h1 (by simp) (by
      intro c hc
      rcases List.mem_cons.mp hc with h | h
      · rw [h]; decide
      · exact digit_plain c (h2 c h)) hp
    have e : (-((List.replicate (-n).toNat '0' ++ ds).length : Int)) = n - (ds.length : Int) := by
      rw [List.length_append, List.length_replicate]
      omega
    simp only [List.singleton_append] at this
    rw [this, e]
    simp only [List.singleton_append, digitsVal_zeros_append, hval]
  · -- one digit and an exponent
    have hp := parse_exp ds _ (n - 1) hds hne hx
    have := text_reads ds _ _ hds hne (by
      intro c hc
      rcases List.mem_cons.mp hc with h | h
      · rw [h]; decide
      · rcases List.mem_cons.mp h with h | h
        · rw [h]; exact hsp
        · exact digit_plain c (decimalChars_all _ c h)) hp
    rw [this, hval, c4]
    rfl
  · -- a digit, a point, digits and an exponent
    have h1 : ∀ c ∈ ds.take 1, c.isDigit = true :=
      fun c hc => hds c (List.mem_of_mem_take hc)
    have h2 : ∀ c ∈ ds.drop 1, c.isDigit = true :=
      fun c hc => hds c (List.mem_of_mem_drop hc)
    have h3 : ds.take 1 ≠ [] := by
      intro h
      have := congrArg List.length h
      rw [List.length_take, List.length_nil] at this
      omega
    have hp := parse_point_exp _ _ _ (n - 1) h1 h2 h3 hx
    rw [List.take_append_drop, hval] at hp
    have := text_reads (ds.take 1) _ _ h1 h3 (by
      intro c hc
      rcases List.mem_cons.mp hc with h | h
      · rw [h]; decide
      · rcases List.mem_append.mp h with h | h
        · exact digit_plain c (h2 c h)
        · rcases List.mem_cons.mp h with h | h
          · rw [h]; decide
          · rcases List.mem_cons.mp h with h | h
            · rw [h]; exact hsp
            · exact digit_plain c (decimalChars_all _ c h)) hp
    have e : n - 1 - ((ds.drop 1).length : Int) = n - (ds.length : Int) := by
      rw [List.length_drop]
      push_cast [Nat.cast_sub (Nat.succ_le_of_lt hk)]
      omega
    rw [this, e]

/-! ## The string form of a number reads back as the number -/

theorem two_pow_1074_lt : (2 : Nat) ^ 1074 < 10 ^ 400 := by norm_num

theorem exact_guard (m j : Nat) (hm : 0 < m) (hj : j ≤ 1074) :
    ¬ (-(j : Int) + ((decimalChars (m * 5 ^ j)).length : Int) < -400) := by
  intro h
  have hlen := lt_pow_length (m * 5 ^ j)
  generalize (decimalChars (m * 5 ^ j)).length = len at h hlen
  have h1 : len + 400 < j := by omega
  have h2 : (10 : Nat) ^ j < 10 ^ (len + 400) := by
    calc (10 : Nat) ^ j = 2 ^ j * 5 ^ j := by rw [← Nat.mul_pow]
      _ ≤ 2 ^ 1074 * (m * 5 ^ j) := by
          apply Nat.mul_le_mul (Nat.pow_le_pow_right (by norm_num) hj)
          exact Nat.le_mul_of_pos_left _ hm
      _ < 10 ^ 400 * 10 ^ len := Nat.mul_lt_mul'' two_pow_1074_lt hlen
      _ = 10 ^ (len + 400) := by rw [pow_add]; ring
  have := (Nat.pow_lt_pow_iff_right (by norm_num : 1 < 10)).mp h2
  omega

theorem exactDigits_value (d : F64) (hpos : 0 < d.m) :
    0 < (exactDigits d).1 ∧ decimalValue (exactDigits d) = .finite d := by
  have hcan := (F64.canonical_iff d.m d.e).mp d.canonical
  obtain ⟨he1, -, -, -⟩ := hcan
  have hm : 0 < d.m.toNat := by omega
  have hmc : ((d.m.toNat : Nat) : Int) = d.m := Int.toNat_of_nonneg (le_of_lt hpos)
  unfold exactDigits
  split_ifs with h0
  · refine ⟨by positivity, ?_⟩
    unfold decimalValue roundDecimal
    have hS : d.m.toNat * 2 ^ d.e.toNat ≠ 0 := by positivity
    simp only [hS, if_false, sub_self, le_refl, if_true, Int.toNat_zero, pow_zero, mul_one]
    have g1 : ¬ ((400 : Int) < 0) := by omega
    have g2 : ¬ ((0 : Int) + ((decimalChars (d.m.toNat * 2 ^ d.e.toNat)).length : Int) < -400) := by
      omega
    simp only [g1, g2, if_false]
    apply roundFrac_exact d _ 1 (by norm_num)
    have e0 : (-d.e).toNat = 0 := by omega
    rw [e0]
    push_cast
    rw [hmc]
    ring
  · have hj : (-d.e).toNat ≤ 1074 := by omega
    have hej : d.e = -(((-d.e).toNat : Nat) : Int) := by omega
    refine ⟨by positivity, ?_⟩
    unfold decimalValue roundDecimal
    have hS : d.m.toNat * 5 ^ (-d.e).toNat ≠ 0 := by positivity
    have e1 : d.e + ((decimalChars (d.m.toNat * 5 ^ (-d.e).toNat)).length : Int) -
        ((decimalChars (d.m.toNat * 5 ^ (-d.e).toNat)).length : Int) = d.e := by ring
    simp only [hS, if_false, e1]
    have g1 : ¬ ((400 : Int) < d.e) := by omega
    have g2 := exact_guard d.m.toNat (-d.e).toNat hm hj
    rw [← hej] at g2
    simp only [g1, g2, h0, if_false]
    apply roundFrac_exact d _ _ (by positivity)
    have e0 : d.e.toNat = 0 := by omega
    rw [e0]
    push_cast
    rw [hmc]
    have : (10 : Int) ^ (-d.e).toNat = 2 ^ (-d.e).toNat * 5 ^ (-d.e).toNat := by
      rw [← mul_pow]; norm_num
    rw [this]
    ring

theorem shortestDigits_value (d : F64) (hpos : 0 < d.m) :
    0 < (shortestDigits d).1 ∧ decimalValue (shortestDigits d) = .finite d := by
  unfold shortestDigits
  simp only []
  split
  · rename_i c hc
    have := List.find?_some hc
    simp only [Bool.and_eq_true, decide_eq_true_eq] at this
    exact this
  · exact exactDigits_value d hpos

/-- The string form of a positive finite number reads back as that number:
`Number(String(x))` is `x`. -/
theorem ecma_roundTrip (x : JSNum) (hf : x.isFinite = true) (hp : x.gtZero = true) :
    ecmaConv.stringToNumber (ecmaConv.numberToString x) = x := by
  cases x with
  | nan => simp [JSNum.isFinite] at hf
  | posInf => simp [JSNum.isFinite] at hf
  | negInf => simp [JSNum.isFinite] at hf
  | finite d =>
    have hpos : 0 < d.m := by simpa [JSNum.gtZero] using hp
    have h1 : ¬ d.m = 0 := by omega
    have h2 : ¬ d.m < 0 := by omega
    obtain ⟨-, hv⟩ := shortestDigits_value d hpos
    show stringToNumber (numberToString (.finite d)) = .finite d
    simp only [numberToString, h1, h2, if_false, positiveToString]
    rw [format_reads]
    exact hv

/-! ## The invariant is preserved -/

theorem basic_ne_auto : ("basic" : String) ≠ "auto" := by decide

theorem fin_zero_not_pos : (JSNum.fin 0).gtZero = false := by decide

theorem fin_ten_finite : (JSNum.fin 10).isFinite = true := by decide

theorem fin_ten_pos : (JSNum.fin 10).gtZero = true := by decide

theorem set_refresh_number (P : NumConv) (n : JSNum) (s : DogWidget) :
    set_refresh P (.number n) s =
      .ok (setAttribute P "refresh"
        (P.numberToString (if n.isFinite && n.gtZero then n else .fin 10)) s) := by
  simp [set_refresh, Number]

theorem set_refresh_ok (P : NumConv) (v : JSValue) (s s1 : DogWidget)
    (h : set_refresh P v s = .ok s1) : ∃ a, s1 = setAttribute P "refresh" a s := by
  unfold set_refresh at h
  split at h
  · cases h
  · injection h with h
    exact ⟨_, h.symm⟩

theorem connectedCallback_eq (P : NumConv) (s : DogWidget) :
    connectedCallback P s = .ok (connectedState P s) := by
  unfold connectedCallback connectedState
  simp only [set_refresh_number]
  split_ifs <;> rfl

theorem mode_mem_observed : "mode" ∈ observedAttributes := by decide

theorem refresh_mem_observed : "refresh" ∈ observedAttributes := by decide

theorem refresh_ne_mode : ("refresh" : String) ≠ "mode" := by decide

theorem setAttribute_other (P : NumConv) (name value : String) (s : DogWidget)
    (hm : name ≠ "mode") (hr : name ≠ "refresh") : setAttribute P name value s = s := by
  simp [setAttribute, observedAttributes, hm, hr]

theorem removeAttribute_other (P : NumConv) (name : String) (s : DogWidget)
    (hm : name ≠ "mode") (hr : name ≠ "refresh") : removeAttribute P name s = s := by
  simp [removeAttribute, observedAttributes, hm, hr]

theorem invG_setAttribute_mode (P : NumConv) (c : Bool) (value : String) (s : DogWidget)
    (h : InvG P c s) : InvG P c (setAttribute P "mode" value s) := by
  obtain ⟨h1, h2, h3, h4, h5, h6, h7⟩ := h
  unfold setAttribute observedAttributes
  cases ht : s._timerId <;>
  by_cases hv : value = "auto" <;>
  by_cases ho : s.modeAttr = some value <;>
  constructor <;>
  simp_all [attributeChangedCallback, getAttribute, storeAttribute, _handleModeChange,
    _startTimer, _stopTimer, _updateButtonVisibility, _restartTimer, basic_ne_auto]

theorem invG_setAttribute_refresh (P : NumConv) (c : Bool) (value : String) (s : DogWidget)
    (h : InvG P c s) : InvG P c (setAttribute P "refresh" value s) := by
  obtain ⟨h1, h2, h3, h4, h5, h6, h7⟩ := h
  simp only [setAttribute, refresh_mem_observed, if_true, attributeChangedCallback,
    getAttribute, storeAttribute, refresh_ne_mode, if_false, _restartTimer, attrNumber]
  by_cases ho : s.refreshAttr = some value
  · simp only [ho, if_true]
    constructor <;> simp_all [attrNumber]
  · simp only [ho, if_false]
    by_cases ha : s._mode = "auto"
    · simp only [ha, if_true]
      cases ht : s._timerId <;> constructor <;>
        simp_all [_startTimer, _stopTimer, attrNumber]
    · simp only [ha, if_false]
      have ht : s._timerId = none := by
        by_contra hc; exact ha (h5 hc)
      constructor <;> simp_all [attrNumber]

theorem invG_setAttribute (P : NumConv) (c : Bool) (name value : String) (s : DogWidget)
    (h : InvG P c s) : InvG P c (setAttribute P name value s) := by
  by_cases hm : name = "mode"
  · subst hm; exact invG_setAttribute_mode P c value s h
  · by_cases hr : name = "refresh"
    · subst hr; exact invG_setAttribute_refresh P c value s h
    · rw [setAttribute_other P name value s hm hr]; exact h

theorem invG_removeAttribute_mode (P : NumConv) (c : Bool) (s : DogWidget)
    (h : InvG P c s) : InvG P c (removeAttribute P "mode" s) := by
  obtain ⟨h1, h2, h3, h4, h5, h6, h7⟩ := h
  unfold removeAttribute observedAttributes
  cases ht : s._timerId <;>
  cases ho : s.modeAttr <;>
  constructor <;>
  simp_all [attributeChangedCallback, getAttribute, storeAttribute, _handleModeChange,
    _startTimer, _stopTimer, _updateButtonVisibility, _restartTimer, basic_ne_auto]

theorem invG_removeAttribute_refresh (P : NumConv) (c : Bool) (s : DogWidget)
    (h : InvG P c s) : InvG P c (removeAttribute P "refresh" s) := by
  obtain ⟨h1, h2, h3, h4, h5, h6, h7⟩ := h
  simp only [removeAttribute, refresh_mem_observed, if_true, getAttribute, refresh_ne_mode,
    if_false]
  cases ho : s.refreshAttr with
  | none => exact ⟨h1, h2, h3, h4, h5, h6, h7⟩
  | some old =>
    simp only [attributeChangedCallback, storeAttribute, refresh_ne_mode, if_false,
      _restartTimer, attrNumber, if_true]
    by_cases ha : s._mode = "auto"
    · cases ht : s._timerId <;> constructor <;>
        simp_all [_startTimer, _stopTimer, attrNumber, fin_zero_not_pos]
    · have ht : s._timerId = none := by
        by_contra hc; exact ha (h5 hc)
      constructor <;> simp_all [attrNumber, fin_zero_not_pos]

theorem invG_removeAttribute (P : NumConv) (c : Bool) (name : String) (s : DogWidget)
    (h : InvG P c s) : InvG P c (removeAttribute P name s) := by
  by_cases hm : name = "mode"
  · subst hm; exact invG_removeAttribute_mode P c s h
  · by_cases hr : name = "refresh"
    · subst hr; exact invG_removeAttribute_refresh P c s h
    · rw [removeAttribute_other P name s hm hr]; exact h

theorem setAttribute_isConnected (P : NumConv) (name value : String) (s : DogWidget) :
    (setAttribute P name value s).isConnected = s.isConnected := by
  by_cases hm : name = "mode"
  · subst hm
    cases ht : s._timerId <;>
    simp [setAttribute, observedAttributes, attributeChangedCallback, getAttribute,
      storeAttribute, _handleModeChange, _startTimer, _stopTimer, _updateButtonVisibility,
      _restartTimer, basic_ne_auto, ht] <;>
    split_ifs <;> simp [ht]
  · by_cases hr : name = "refresh"
    · subst hr
      cases ht : s._timerId <;>
      simp [setAttribute, observedAttributes, attributeChangedCallback, getAttribute,
        storeAttribute, _startTimer, _stopTimer,
        _restartTimer, ht] <;>
      split_ifs <;> simp [ht]
    · rw [setAttribute_other P name value s hm hr]

theorem removeAttribute_isConnected (P : NumConv) (name : String) (s : DogWidget) :
    (removeAttribute P name s).isConnected = s.isConnected := by
  by_cases hm : name = "mode"
  · subst hm
    cases ht : s._timerId <;> cases ho : s.modeAttr <;>
    simp [removeAttribute, observedAttributes, attributeChangedCallback, getAttribute,
      storeAttribute, _handleModeChange, _startTimer, _stopTimer, _updateButtonVisibility,
      _restartTimer, basic_ne_auto, ht, ho]
  · by_cases hr : name = "refresh"
    · subst hr
      cases ht : s._timerId <;> cases ho : s.refreshAttr <;>
      simp [removeAttribute, observedAttributes, attributeChangedCallback, getAttribute,
        storeAttribute, _startTimer, _stopTimer, _restartTimer, ht, ho] <;>
      split_ifs <;> simp [ht]
    · rw [removeAttribute_other P name s hm hr]

theorem invG_weaken (P : NumConv) (c : Bool) (s : DogWidget) (h : InvG P true s) :
    InvG P c s := by
  obtain ⟨h1, h2, h3, h4, h5, h6, h7⟩ := h
  exact ⟨h1, h2, h3, h4, h5, (fun _ => h6 rfl), h7⟩

theorem invG_of_not_auto (P : NumConv) (c : Bool) (s : DogWidget) (h : InvG P c s)
    (ha : ¬ s._mode = "auto") : InvG P true s := by
  obtain ⟨h1, h2, h3, h4, h5, h6, h7⟩ := h
  exact ⟨h1, h2, h3, h4, h5, (fun _ hm => absurd hm ha), h7⟩

theorem invG_fetchFact (P : NumConv) (c : Bool) (s : DogWidget) (h : InvG P c s) :
    InvG P c (_fetchFact s) := by
  obtain ⟨h1, h2, h3, h4, h5, h6, h7⟩ := h
  exact ⟨h1, h2, h3, h4, h5, h6, h7⟩

theorem invG_disconnectedCallback (P : NumConv) (c : Bool) (s : DogWidget)
    (h : InvG P c s) : InvG P false (disconnectedCallback s) := by
  obtain ⟨h1, h2, h3, h4, h5, h6, h7⟩ := h
  cases ht : s._timerId <;> constructor <;>
    simp_all [disconnectedCallback, _stopTimer]

theorem invG_arm (P : NumConv) (c : Bool) (s : DogWidget) (h : InvG P c s)
    (ha : s._mode = "auto") : InvG P true (_updateButtonVisibility (_startTimer s)) := by
  obtain ⟨h1, h2, h3, h4, h5, h6, h7⟩ := h
  cases ht : s._timerId <;> constructor <;>
    simp_all [_startTimer, _stopTimer, _updateButtonVisibility]

theorem invG_connectedState (P : NumConv) (c : Bool) (s : DogWidget) (h : InvG P c s) :
    InvG P true (connectedState P s) := by
  have h0 : InvG P false { s with isConnected := true } := by
    obtain ⟨h1, h2, h3, h4, h5, h6, h7⟩ := h
    exact ⟨h1, h2, h3, h4, h5, (fun hc => by cases hc), h7⟩
  have key : ∀ s2, InvG P false s2 → InvG P true (connectedCallback_finish s2) := by
    intro s2 h2
    unfold connectedCallback_finish
    simp only []
    split_ifs with c3
    · exact invG_arm P false _ (invG_fetchFact P false _ h2) c3
    · exact invG_of_not_auto P false _ (invG_fetchFact P false _ h2) c3
  unfold connectedState
  simp only []
  apply key
  have h1 : InvG P false
      (if (getAttribute { s with isConnected := true } "mode").isNone then
        set_mode P (.string s._mode) { s with isConnected := true }
       else { s with isConnected := true }) := by
    split_ifs
    · exact invG_setAttribute P false _ _ _ h0
    · exact h0
  split_ifs
  all_goals first
    | exact invG_setAttribute P false _ _ _ (invG_setAttribute P false _ _ _ h0)
    | exact invG_setAttribute P false _ _ _ h0
    | exact h0

theorem invG_initial (P : NumConv) (c : Bool) : InvG P c initialWidget := by
  constructor <;>
    simp [initialWidget, attrNumber, fin_zero_not_pos, basic_ne_auto]

theorem invG_construct (P : NumConv) (options : Option Options) (s : DogWidget)
    (h : construct P options = .ok s) : InvG P false s := by
  unfold construct at h
  cases options with
  | none =>
    injection h with h
    subst h
    exact invG_initial P false
  | some o =>
    simp only [] at h
    have h1 : InvG P false
        (if truthy o.mode then set_mode P o.mode initialWidget else initialWidget) := by
      split_ifs
      · exact invG_setAttribute P false _ _ _ (invG_initial P false)
      · exact invG_initial P false
    generalize (if truthy o.mode then set_mode P o.mode initialWidget else initialWidget) = s1
      at h h1
    by_cases c1 : isNullish o.refresh = true
    · rw [if_pos c1] at h
      injection h with h
      subst h
      exact h1
    · rw [if_neg c1] at h
      obtain ⟨a, rfl⟩ := set_refresh_ok P _ _ _ h
      exact invG_setAttribute P false _ _ _ h1

/-! ## The settling of a request -/

theorem settle_rejected (P : NumConv) (reason : String) (s : DogWidget) :
    _fetchFact_settle P (.rejected reason) s = .ok (failureState reason s) := by
  simp [_fetchFact_settle, _fetchFact_try, failureState]

theorem settle_not_ok (P : NumConv) (status : Nat) (json : Except String JSValue)
    (s : DogWidget) :
    _fetchFact_settle P (.response false status json) s =
      .ok (failureState ("HTTP error " ++ toString status) s) := by
  simp [_fetchFact_settle, _fetchFact_try, failureState]

theorem settle_json_error (P : NumConv) (status : Nat) (reason : String) (s : DogWidget) :
    _fetchFact_settle P (.response true status (.error reason)) s =
      .ok (failureState reason s) := by
  simp [_fetchFact_settle, _fetchFact_try, failureState]

theorem settle_falsy (P : NumConv) (status : Nat) (data : JSValue) (s : DogWidget)
    (hb : truthy (factBody data) = false) :
    _fetchFact_settle P (.response true status (.ok data)) s =
      .ok (failureState "Неверный формат ответа API" s) := by
  simp [_fetchFact_settle, _fetchFact_try, failureState, hb]

theorem settle_truthy (P : NumConv) (status : Nat) (data : JSValue) (s : DogWidget)
    (text : String) (hb : truthy (factBody data) = true)
    (ht : JSString P (factBody data) = .ok text) :
    _fetchFact_settle P (.response true status (.ok data)) s =
      .ok (successState P text s) := by
  simp [_fetchFact_settle, _fetchFact_try, successState, hb, ht]

theorem settle_throws (P : NumConv) (status : Nat) (data : JSValue) (s : DogWidget)
    (err : String) (hb : truthy (factBody data) = true)
    (ht : JSString P (factBody data) = .error err) :
    _fetchFact_settle P (.response true status (.ok data)) s =
      .ok (failureState err s) := by
  simp [_fetchFact_settle, _fetchFact_try, failureState, hb, ht]

theorem settle_cases (P : NumConv) (r : FetchResult) (s : DogWidget) :
    (∃ err, _fetchFact_settle P r s = .ok (failureState err s)) ∨
    (∃ text, _fetchFact_settle P r s = .ok (successState P text s)) := by
  cases r with
  | rejected reason => exact Or.inl ⟨_, settle_rejected P reason s⟩
  | response ok status json =>
    cases ok with
    | false => exact Or.inl ⟨_, settle_not_ok P status json s⟩
    | true =>
      cases json with
      | error reason => exact Or.inl ⟨_, settle_json_error P status reason s⟩
      | ok data =>
        cases hb : truthy (factBody data) with
        | false => exact Or.inl ⟨_, settle_falsy P status data s hb⟩
        | true =>
          cases ht : JSString P (factBody data) with
          | error err => exact Or.inl ⟨_, settle_throws P status data s err hb ht⟩
          | ok text => exact Or.inr ⟨_, settle_truthy P status data s text hb ht⟩

theorem invG_fetchFact_settle (P : NumConv) (c : Bool) (r : FetchResult) (s s1 : DogWidget)
    (h : InvG P c s) (hs : _fetchFact_settle P r s = .ok s1) : InvG P c s1 := by
  obtain ⟨h1, h2, h3, h4, h5, h6, h7⟩ := h
  rcases settle_cases P r s with ⟨err, he⟩ | ⟨body, he⟩
  · rw [he] at hs
    injection hs with hs
    subst hs
    exact ⟨h1, h2, h3, h4, h5, h6, h7⟩
  · rw [he] at hs
    injection hs with hs
    subst hs
    exact ⟨h1, h2, h3, h4, h5, h6, h7⟩

theorem settle_isConnected (P : NumConv) (r : FetchResult) (s s1 : DogWidget)
    (hs : _fetchFact_settle P r s = .ok s1) : s1.isConnected = s.isConnected := by
  rcases settle_cases P r s with ⟨err, he⟩ | ⟨body, he⟩
  · rw [he] at hs
    injection hs with hs
    subst hs
    rfl
  · rw [he] at hs
    injection hs with hs
    subst hs
    rfl

theorem inv_applyEvent (P : NumConv) (e : Event) (s : DogWidget) (h : Inv P s) :
    Inv P (applyEvent P e s) := by
  unfold Inv at h ⊢
  cases e with
  | attach =>
    simp only [applyEvent, connectedCallback_eq]
    split_ifs
    · exact h
    · exact invG_weaken P _ _ (invG_connectedState P _ s h)
  | detach =>
    simp only [applyEvent]
    split_ifs
    · have := invG_disconnectedCallback P _ s h
      obtain ⟨k1, k2, k3, k4, k5, k6, k7⟩ := this
      refine ⟨k1, k2, k3, k4, k5, ?_, k7⟩
      intro hc
      cases ht : s._timerId <;> simp [disconnectedCallback, _stopTimer, ht] at hc
    · exact h
  | assignMode v =>
    simp only [applyEvent, set_mode]
    rw [setAttribute_isConnected]
    exact invG_setAttribute P _ _ _ s h
  | assignRefresh v =>
    simp only [applyEvent]
    cases hr : set_refresh P v s with
    | error err => exact h
    | ok s1 =>
      obtain ⟨a, rfl⟩ := set_refresh_ok P v s s1 hr
      simp only []
      rw [setAttribute_isConnected]
      exact invG_setAttribute P _ _ _ s h
  | setAttr name value =>
    simp only [applyEvent]
    rw [setAttribute_isConnected]
    exact invG_setAttribute P _ _ _ s h
  | removeAttr name =>
    simp only [applyEvent]
    rw [removeAttribute_isConnected]
    exact invG_removeAttribute P _ _ s h
  | click =>
    simp only [applyEvent]
    split_ifs
    · exact h
    · exact invG_fetchFact P _ s h
  | tick handle =>
    simp only [applyEvent]
    split_ifs
    · exact invG_fetchFact P _ s h
    · exact h
  | settle r =>
    simp only [applyEvent]
    split_ifs
    · exact h
    · cases hs : _fetchFact_settle P r s with
      | error err => exact h
      | ok s1 =>
        simp only []
        rw [settle_isConnected P r s s1 hs]
        exact invG_fetchFact_settle P _ r s s1 h hs

theorem construct_isConnected (P : NumConv) (options : Option Options) (s : DogWidget)
    (h : construct P options = .ok s) : s.isConnected = false := by
  unfold construct at h
  cases options with
  | none =>
    injection h with h
    subst h
    rfl
  | some o =>
    simp only [] at h
    have h1 : (if truthy o.mode then set_mode P o.mode initialWidget
        else initialWidget).isConnected = false := by
      split_ifs
      · simp [set_mode, setAttribute_isConnected, initialWidget]
      · rfl
    generalize (if truthy o.mode then set_mode P o.mode initialWidget else initialWidget) = s1
      at h h1
    by_cases c1 : isNullish o.refresh = true
    · rw [if_pos c1] at h
      injection h with h
      subst h
      exact h1
    · rw [if_neg c1] at h
      obtain ⟨a, rfl⟩ := set_refresh_ok P _ _ _ h
      rw [setAttribute_isConnected]
      exact h1

theorem reachable_inv (P : NumConv) (s : DogWidget) (h : Reachable P s) : Inv P s := by
  induction h with
  | init options s hs =>
    unfold Inv
    rw [construct_isConnected P options s hs]
    exact invG_construct P options s hs
  | step e s _ ih => exact inv_applyEvent P e s ih

/-! ## What an attribute change leaves untouched -/

theorem fetchCount_append (l m : List Effect) :
    fetchCount (l ++ m) = fetchCount l + fetchCount m := by
  simp [fetchCount, List.filter_append]

theorem fetchCount_nil : fetchCount [] = 0 := rfl

theorem fetchCount_clear (l : List Effect) (h : Nat) :
    fetchCount (Effect.clearInterval h :: l) = fetchCount l := by
  simp [fetchCount]

theorem fetchCount_set (l : List Effect) (h : Nat) (ms : JSNum) :
    fetchCount (Effect.setInterval h ms :: l) = fetchCount l := by
  simp [fetchCount]

theorem fetchCount_fetch (l : List Effect) (u : String) :
    fetchCount (Effect.fetch u :: l) = fetchCount l + 1 := by
  simp [fetchCount]

theorem sameRequests_setAttribute_mode (P : NumConv) (value : String) (s : DogWidget) :
    SameRequests s (setAttribute P "mode" value s) ∧
    (setAttribute P "mode" value s)._refreshSeconds = s._refreshSeconds ∧
    (setAttribute P "mode" value s).refreshAttr = s.refreshAttr := by
  unfold SameRequests
  cases ht : s._timerId <;>
  simp [setAttribute, observedAttributes, attributeChangedCallback, getAttribute,
    storeAttribute, _handleModeChange, _startTimer, _stopTimer, _updateButtonVisibility,
    ht] <;>
  split_ifs <;>
  simp_all [fetchCount_append, fetchCount_clear, fetchCount_set, fetchCount_nil]

theorem sameRequests_setAttribute_refresh (P : NumConv) (value : String) (s : DogWidget) :
    SameRequests s (setAttribute P "refresh" value s) ∧
    (setAttribute P "refresh" value s)._mode = s._mode ∧
    (setAttribute P "refresh" value s).modeAttr = s.modeAttr ∧
    (setAttribute P "refresh" value s).buttonDisplay = s.buttonDisplay := by
  unfold SameRequests
  cases ht : s._timerId <;>
  simp [setAttribute, observedAttributes, attributeChangedCallback, getAttribute,
    storeAttribute, _restartTimer, _startTimer, _stopTimer, ht] <;>
  split_ifs <;>
  simp_all [fetchCount_append, fetchCount_clear, fetchCount_set, fetchCount_nil]

theorem setAttribute_mode_attr (P : NumConv) (value : String) (s : DogWidget) :
    (setAttribute P "mode" value s).modeAttr = some value := by
  cases ht : s._timerId <;>
  simp [setAttribute, observedAttributes, attributeChangedCallback, getAttribute,
    storeAttribute, _handleModeChange, _startTimer, _stopTimer, _updateButtonVisibility,
    ht] <;>
  split_ifs <;> simp_all

theorem mode_after_setAttribute_inv (P : NumConv) (c : Bool) (s : DogWidget)
    (h : InvG P c s) (a : String) :
    (a = "auto" → (setAttribute P "mode" a s)._mode = "auto") ∧
    (a ≠ "auto" → (setAttribute P "mode" a s)._mode = "basic") := by
  have hi := invG_setAttribute P c "mode" a s h
  have ha := setAttribute_mode_attr P a s
  obtain ⟨k1, k2, -, -, -, -, -⟩ := hi
  constructor
  · intro e
    subst e
    exact k2.mpr ha
  · intro e
    rcases k1 with k | k
    · have := k2.mp k
      rw [ha] at this
      injection this with this
      exact absurd this e
    · exact k

theorem set_mode_current (P : NumConv) (c : Bool) (s : DogWidget) (h : InvG P c s) :
    (set_mode P (.string s._mode) s)._mode = s._mode := by
  rcases h.mode_values with k | k
  · rw [k]
    exact (mode_after_setAttribute_inv P c s h "auto").1 rfl
  · rw [k]
    exact (mode_after_setAttribute_inv P c s h "basic").2 basic_ne_auto

theorem set_mode_requests (P : NumConv) (v : JSValue) (s : DogWidget) :
    fetchCount (set_mode P v s).log = fetchCount s.log ∧
    (set_mode P v s).inFlight = s.inFlight :=
  ⟨(sameRequests_setAttribute_mode P _ s).1.1, (sameRequests_setAttribute_mode P _ s).1.2.1⟩

theorem setAttribute_refresh_requests (P : NumConv) (a : String) (s : DogWidget) :
    fetchCount (setAttribute P "refresh" a s).log = fetchCount s.log ∧
    (setAttribute P "refresh" a s).inFlight = s.inFlight ∧
    (setAttribute P "refresh" a s)._mode = s._mode :=
  ⟨(sameRequests_setAttribute_refresh P _ s).1.1,
    (sameRequests_setAttribute_refresh P _ s).1.2.1,
    (sameRequests_setAttribute_refresh P _ s).2.1⟩

theorem arm_requests (s : DogWidget) :
    fetchCount (_updateButtonVisibility (_startTimer s)).log = fetchCount s.log ∧
    (_updateButtonVisibility (_startTimer s)).inFlight = s.inFlight ∧
    (_updateButtonVisibility (_startTimer s))._mode = s._mode := by
  cases ht : s._timerId <;>
  simp [_startTimer, _stopTimer, _updateButtonVisibility, ht] <;>
  split_ifs <;>
  simp_all [fetchCount_append, fetchCount_clear, fetchCount_set, fetchCount_nil]

theorem fetchFact_requests (s : DogWidget) :
    fetchCount (_fetchFact s).log = fetchCount s.log + 1 ∧
    (_fetchFact s).inFlight = s.inFlight + 1 ∧
    (_fetchFact s)._mode = s._mode := by
  simp [_fetchFact, fetchCount_append, fetchCount_fetch, fetchCount_nil]

theorem finish_requests (s : DogWidget) :
    fetchCount (connectedCallback_finish s).log = fetchCount s.log + 1 ∧
    (connectedCallback_finish s).inFlight = s.inFlight + 1 ∧
    (connectedCallback_finish s)._mode = s._mode := by
  unfold connectedCallback_finish
  simp only []
  split_ifs <;>
  simp only [(arm_requests _).1, (arm_requests _).2.1, (arm_requests _).2.2,
    (fetchFact_requests _).1, (fetchFact_requests _).2.1, (fetchFact_requests _).2.2,
    and_self]

theorem connectedState_requests (P : NumConv) (c : Bool) (s : DogWidget)
    (h : InvG P c s) :
    fetchCount (connectedState P s).log = fetchCount s.log + 1 ∧
    (connectedState P s).inFlight = s.inFlight + 1 ∧
    (connectedState P s)._mode = s._mode := by
  have h0 : InvG P false { s with isConnected := true } := by
    obtain ⟨h1, h2, h3, h4, h5, h6, h7⟩ := h
    exact ⟨h1, h2, h3, h4, h5, (fun hc => by cases hc), h7⟩
  have hm := set_mode_current P false _ h0
  have e0 : fetchCount ({ s with isConnected := true } : DogWidget).log = fetchCount s.log := rfl
  have e1 : ({ s with isConnected := true } : DogWidget).inFlight = s.inFlight := rfl
  have e2 : ({ s with isConnected := true } : DogWidget)._mode = s._mode := rfl
  unfold connectedState
  simp only []
  generalize ({ s with isConnected := true } : DogWidget) = s0 at hm e0 e1 e2 ⊢
  rw [e2] at hm
  simp only [(finish_requests _).1, (finish_requests _).2.1, (finish_requests _).2.2]
  split_ifs <;>
  simp only [(setAttribute_refresh_requests P _ _).1, (setAttribute_refresh_requests P _ _).2.1,
    (setAttribute_refresh_requests P _ _).2.2, (set_mode_requests P _ _).1,
    (set_mode_requests P _ _).2, hm, e0, e1, e2, and_self, true_and]

theorem pos_finite (n : JSNum) (h1 : n.isFinite = true) (h2 : n.gtZero = true) :
    ∃ d : F64, n = .finite d ∧ 0 < d.m := by
  cases n with
  | finite d => exact ⟨d, rfl, by simpa [JSNum.gtZero] using h2⟩
  | nan => cases h1
  | posInf => cases h1
  | negInf => cases h1

theorem refresh_finite_pos (P : NumConv) (c : Bool) (s : DogWidget) (h : InvG P c s) :
    ∃ d : F64, get_refresh s = .finite d ∧ 0 < d.m := by
  unfold get_refresh
  rw [h.refresh_attr]
  split_ifs with hc
  · rw [Bool.and_eq_true] at hc
    exact pos_finite _ hc.1 hc.2
  · exact pos_finite _ fin_ten_finite fin_ten_pos

/-- The delay computed from a finite refresh value is its product with 1000
rounded to nearest, ties to even. -/
theorem period_roundsTo (d : F64) :
    RoundsTo (d.toRat * 1000) ((JSNum.finite d).mul (.fin 1000)) := by
  obtain ⟨t, ht, hv⟩ := fin_thousand
  rw [ht, ← hv]
  exact mul_roundsTo d t

/-- C5. In every reachable state, attaching the widget issues exactly one
request and keeps the mode; afterwards, in auto mode exactly one interval is
live, it is the one stored in `_timerId`, its period is the product of the
refresh value and 1000, and the button is hidden; in basic mode no interval is
live.  The callback returns normally.  The refresh value is a positive finite
double, and the product is the one of double arithmetic: the exact product
rounded to nearest, ties to even, or Infinity when it overflows. -/
theorem attach_fetch_and_timer (P : NumConv) (s : DogWidget) (h : Reachable P s) :
    ∃ s1, connectedCallback P s = .ok s1 ∧
      fetchCount s1.log = fetchCount s.log + 1 ∧
      s1.inFlight = s.inFlight + 1 ∧
      get_mode s1 = get_mode s ∧
      (get_mode s1 = "auto" →
        ∃ id, s1._timerId = some id ∧
          s1.intervals = [(id, (get_refresh s1).mul (.fin 1000))] ∧
          s1.buttonDisplay = "none") ∧
      (get_mode s1 = "basic" → s1._timerId = none ∧ s1.intervals = []) ∧
      (∃ d : F64, get_refresh s1 = .finite d ∧ 0 < d.m ∧
        RoundsTo (d.toRat * 1000) ((get_refresh s1).mul (.fin 1000))) := by
  have hi := reachable_inv P s h
  obtain ⟨r1, r2, r3⟩ := connectedState_requests P _ s hi
  obtain ⟨d, hd, hpos⟩ := refresh_finite_pos P _ _ (invG_connectedState P _ s hi)
  obtain ⟨k1, k2, k3, k4, k5, k6, k7⟩ := invG_connectedState P _ s hi
  refine ⟨connectedState P s, connectedCallback_eq P s, r1, r2, r3, ?_, ?_,
    ⟨d, hd, hpos, by rw [hd]; exact period_roundsTo d⟩⟩
  · intro ha
    unfold get_mode at ha
    cases ht : (connectedState P s)._timerId with
    | none => exact absurd ht (k6 rfl ha)
    | some id =>
      refine ⟨id, rfl, ?_, ?_⟩
      · rw [k4, ht]; rfl
      · rw [k7, if_pos ha]
  · intro hb
    unfold get_mode at hb
    have hn : (connectedState P s)._timerId = none := by
      by_contra hc
      have := k5 hc
      rw [hb] at this
      exact basic_ne_auto this
    refine ⟨hn, ?_⟩
    rw [k4, hn]; rfl

theorem armed_of_setAttribute (P : NumConv) (c : Bool) (s : DogWidget) (h : InvG P c s)
    (hb : s._mode = "basic") : ArmedHidden s (setAttribute P "mode" "auto" s) := by
  have hi := invG_setAttribute P c "mode" "auto" s h
  have hm := (mode_after_setAttribute_inv P c s h "auto").1 rfl
  obtain ⟨⟨f1, f2, -, -, -⟩, f3, -⟩ := sameRequests_setAttribute_mode P "auto" s
  have ht : ∃ id, (setAttribute P "mode" "auto" s)._timerId = some id := by
    obtain ⟨-, k2, -, -, k5, -, -⟩ := h
    have hn : s.modeAttr ≠ some "auto" := fun e => basic_ne_auto (hb.symm.trans (k2.mpr e))
    cases ht : s._timerId <;>
    simp [setAttribute, observedAttributes, attributeChangedCallback, getAttribute,
      storeAttribute, _handleModeChange, _startTimer, _stopTimer, _updateButtonVisibility,
      ht, hn]
  obtain ⟨id, ht⟩ := ht
  refine ⟨hm, ⟨id, ht, ?_⟩, ?_, f1, f2, f3⟩
  · rw [hi.timers, ht]; rfl
  · rw [hi.display, if_pos hm]

theorem disarmed_of_inv (P : NumConv) (c : Bool) (s s1 : DogWidget) (hi : InvG P c s1)
    (hm : s1._mode = "basic") (f1 : fetchCount s1.log = fetchCount s.log)
    (f2 : s1.inFlight = s.inFlight) (f3 : s1._refreshSeconds = s._refreshSeconds) :
    DisarmedShown s s1 := by
  have hn : s1._timerId = none := by
    by_contra hc
    have := hi.timer_mode hc
    rw [hm] at this
    exact basic_ne_auto this
  refine ⟨hm, hn, ?_, ?_, f1, f2, f3⟩
  · rw [hi.timers, hn]; rfl
  · rw [hi.display, hm]; simp [basic_ne_auto]

theorem disarmed_of_setAttribute (P : NumConv) (c : Bool) (s : DogWidget) (h : InvG P c s)
    (a : String) (ha : a ≠ "auto") : DisarmedShown s (setAttribute P "mode" a s) := by
  obtain ⟨⟨f1, f2, -, -, -⟩, f3, -⟩ := sameRequests_setAttribute_mode P a s
  exact disarmed_of_inv P c s _ (invG_setAttribute P c "mode" a s h)
    ((mode_after_setAttribute_inv P c s h a).2 ha) f1 f2 f3

theorem disarmed_of_removeAttribute (P : NumConv) (c : Bool) (s : DogWidget)
    (h : InvG P c s) (hm : s._mode = "auto") :
    DisarmedShown s (removeAttribute P "mode" s) := by
  have ha : s.modeAttr = some "auto" := h.mode_attr.mp hm
  have key : (removeAttribute P "mode" s)._mode = "basic" ∧
      fetchCount (removeAttribute P "mode" s).log = fetchCount s.log ∧
      (removeAttribute P "mode" s).inFlight = s.inFlight ∧
      (removeAttribute P "mode" s)._refreshSeconds = s._refreshSeconds := by
    cases ht : s._timerId <;>
    simp [removeAttribute, observedAttributes, attributeChangedCallback, getAttribute,
      storeAttribute, _handleModeChange, _startTimer, _stopTimer, _updateButtonVisibility,
      ht, ha, basic_ne_auto, fetchCount_append, fetchCount_clear, fetchCount_nil]
  exact disarmed_of_inv P c s _ (invG_removeAttribute P c "mode" s h) key.1 key.2.1 key.2.2.1
    key.2.2.2

/-- C6. In every reachable state, attached or not: when the mode is basic,
changing it to auto (by the property or by the attribute) leaves exactly one
live interval, stored in `_timerId`, and the button hidden; when the mode is
auto, changing it to basic (by assigning any value other than the string
"auto", by writing any other string to the attribute, or by removing the
attribute) leaves no live interval and the button shown; neither change
issues a request or alters the refresh value. -/
theorem mode_transitions (P : NumConv) (s : DogWidget) (h : Reachable P s)
    (v : JSValue) (a : String) :
    (get_mode s = "basic" →
      ArmedHidden s (set_mode P (.string "auto") s) ∧
      ArmedHidden s (setAttribute P "mode" "auto" s)) ∧
    (get_mode s = "auto" →
      (v ≠ .string "auto" → DisarmedShown s (set_mode P v s)) ∧
      (a ≠ "auto" → DisarmedShown s (setAttribute P "mode" a s)) ∧
      DisarmedShown s (removeAttribute P "mode" s)) := by
  have hi := reachable_inv P s h
  constructor
  · intro hb
    exact ⟨armed_of_setAttribute P _ s hi hb, armed_of_setAttribute P _ s hi hb⟩
  · intro hm
    refine ⟨?_, disarmed_of_setAttribute P _ s hi a, disarmed_of_removeAttribute P _ s hi hm⟩
    intro hv
    have : ¬ strictEqString v "auto" = true := by
      cases v <;> simp_all [strictEqString]
    simp only [set_mode, this, if_false]
    exact disarmed_of_setAttribute P _ s hi "basic" basic_ne_auto

theorem refresh_reassign (P : NumConv) (s : DogWidget) (hfin :
    (s._refreshSeconds.isFinite && s._refreshSeconds.gtZero) = true) :
    set_refresh P (.number (get_refresh s)) s =
      .ok (setAttribute P "refresh" (P.numberToString s._refreshSeconds) s) := by
  rw [get_refresh, set_refresh_number, hfin, if_pos rfl]

/-- C4, as amended. In every reachable state, assigning to the property `mode`
the current mode changes neither the log of calls (no `clearInterval`, no
`setInterval`, no `fetch`) nor the stored handle nor the live intervals,
whatever the attribute holds.  Assigning to the property `refresh` the current
refresh value returns normally and does the same when the mode is basic or
when the attribute `refresh` already holds the string form of that value; in
auto mode with the attribute absent or holding another string it restarts the
timer: the stored interval, if any, is cleared, a new one is registered and
stored, and no request is issued. -/
theorem idempotent_assignment (P : NumConv) (s : DogWidget) (h : Reachable P s) :
    ((set_mode P (.string (get_mode s)) s).log = s.log ∧
      (set_mode P (.string (get_mode s)) s)._timerId = s._timerId ∧
      (set_mode P (.string (get_mode s)) s).intervals = s.intervals) ∧
    ∃ s1, set_refresh P (.number (get_refresh s)) s = .ok s1 ∧
      (get_mode s = "basic" ∨ s.refreshAttr = some (P.numberToString (get_refresh s)) →
        s1.log = s.log ∧ s1._timerId = s._timerId ∧ s1.intervals = s.intervals) ∧
      (get_mode s = "auto" → s.refreshAttr ≠ some (P.numberToString (get_refresh s)) →
        s1.log = s.log ++ s._timerId.toList.map Effect.clearInterval ++
          [Effect.setInterval s.nextHandle ((get_refresh s1).mul (.fin 1000))] ∧
        s1._timerId = some s.nextHandle ∧
        s1.intervals = [(s.nextHandle, (get_refresh s1).mul (.fin 1000))] ∧
        fetchCount s1.log = fetchCount s.log) := by
  obtain ⟨k1, k2, k3, k4, k5, k6, k7⟩ := reachable_inv P s h
  constructor
  · rcases k1 with k | k
    · have ha := k2.mp k
      simp [get_mode, set_mode, strictEqString, k, setAttribute, observedAttributes,
        attributeChangedCallback, getAttribute, storeAttribute, ha]
    · have hn : s._timerId = none := by
        by_contra hc
        exact basic_ne_auto (k.symm.trans (k5 hc))
      by_cases ho : s.modeAttr = some "basic" <;>
      simp [get_mode, set_mode, strictEqString, k, setAttribute, observedAttributes,
        attributeChangedCallback, getAttribute, storeAttribute, ho, basic_ne_auto,
        _handleModeChange, _stopTimer, _updateButtonVisibility, hn]
  · have hfin : (s._refreshSeconds.isFinite && s._refreshSeconds.gtZero) = true := by
      rw [k3]
      split_ifs with hh
      · exact hh
      · simp [fin_ten_finite, fin_ten_pos]
    refine ⟨_, refresh_reassign P s hfin, ?_, ?_⟩
    · intro hc
      rcases hc with hb | hr
      · have hn : s._timerId = none := by
          by_contra hc
          exact basic_ne_auto (hb.symm.trans (k5 hc))
        have hb2 : s._mode = "basic" := hb
        by_cases ho : s.refreshAttr = some (P.numberToString s._refreshSeconds) <;>
        simp [setAttribute, observedAttributes, attributeChangedCallback, getAttribute,
          storeAttribute, ho, hb2, basic_ne_auto, hn]
      · have hr2 : s.refreshAttr = some (P.numberToString s._refreshSeconds) := hr
        simp [setAttribute, observedAttributes, attributeChangedCallback, getAttribute,
          storeAttribute, hr2]
    · intro ha ho
      have ha2 : s._mode = "auto" := ha
      have ho2 : ¬ s.refreshAttr = some (P.numberToString s._refreshSeconds) := ho
      cases ht : s._timerId <;>
      simp [setAttribute, observedAttributes, attributeChangedCallback, getAttribute,
        storeAttribute, ho2, ha2, _restartTimer, _startTimer, _stopTimer, ht, get_refresh,
        k4, fetchCount_append, fetchCount_clear, fetchCount_set, fetchCount_nil]

/-! ## Outcomes of a request -/

theorem failureOutcome_failureState (err : String) (s : DogWidget) :
    FailureOutcome s (.ok (failureState err s)) :=
  ⟨_, rfl, rfl, rfl, by simp [failureState, get_mode], rfl⟩

theorem successOutcome_successState (P : NumConv) (text : String) (s : DogWidget) :
    SuccessOutcome P text s (.ok (successState P text s)) :=
  ⟨_, rfl, rfl, rfl, by simp [successState, get_mode], rfl⟩

theorem autoStatus_ne_error (P : NumConv) (n : JSNum) :
    autoStatusText P n ≠ errorStatusText := by
  intro h
  have := congrArg String.data h
  simp [autoStatusText, errorStatusText] at this

theorem outcomes_exclusive (P : NumConv) (text : String) (s : DogWidget)
    (res : Except String DogWidget) :
    ¬ (SuccessOutcome P text s res ∧ FailureOutcome s res) := by
  rintro ⟨⟨s1, e1, -, h1, -, -⟩, ⟨s2, e2, -, h2, -, -⟩⟩
  rw [e1] at e2
  injection e2 with e2
  subst e2
  rw [h1] at h2
  split_ifs at h2
  · exact autoStatus_ne_error P _ h2
  · revert h2; decide

/-- C7. In any state, each of the three failure kinds of a request (the
promise of `fetch` rejects, the response is not OK, the response is OK and its
body has no fact field) makes the routine return normally with the same
visible state: the fixed failure text in the fact area, the fixed error text
in the status area, and the button disabled exactly when the mode is auto. -/
theorem fetch_failures_collapse (P : NumConv) (s : DogWidget) (reason : String)
    (status : Nat) (json : Except String JSValue) (data : JSValue) :
    FailureOutcome s (_fetchFact_settle P (.rejected reason) s) ∧
    FailureOutcome s (_fetchFact_settle P (.response false status json) s) ∧
    (factBody data = .undefined →
      FailureOutcome s (_fetchFact_settle P (.response true status (.ok data)) s)) := by
  refine ⟨?_, ?_, ?_⟩
  · rw [settle_rejected]; exact failureOutcome_failureState _ s
  · rw [settle_not_ok]; exact failureOutcome_failureState _ s
  · intro hb
    rw [settle_falsy P status data s (by rw [hb]; rfl)]
    exact failureOutcome_failureState _ s

/-- C8, as amended. A settled request renders the success outcome exactly when
the response is OK, its body parses, the value at `data[0].attributes.body` is
truthy and its conversion to a string does not throw; the fact area then shows
that string form, which for a string is the string itself.  In every other
case, a truthy value whose conversion throws included, it renders the failure
outcome, and the two outcomes exclude each other.  A string is truthy exactly
when it is not empty, and the conversion of a number does not throw. -/
theorem fetch_outcome (P : NumConv) (s : DogWidget) (r : FetchResult) :
    (∀ status data text, r = .response true status (.ok data) →
      truthy (factBody data) = true → JSString P (factBody data) = .ok text →
      SuccessOutcome P text s (_fetchFact_settle P r s)) ∧
    ((∀ status data, r = .response true status (.ok data) →
      truthy (factBody data) = false ∨ ∃ err, JSString P (factBody data) = .error err) →
      FailureOutcome s (_fetchFact_settle P r s)) ∧
    (∀ text, ¬ (SuccessOutcome P text s (_fetchFact_settle P r s) ∧
      FailureOutcome s (_fetchFact_settle P r s))) ∧
    (∀ t : String, (truthy (.string t) = true ↔ t ≠ "") ∧ JSString P (.string t) = .ok t) ∧
    (∀ n : JSNum, JSString P (.number n) = .ok (P.numberToString n)) := by
  refine ⟨?_, ?_, fun text => outcomes_exclusive P text s _, ?_, ?_⟩
  · intro status data text e hb ht
    subst e
    rw [settle_truthy P status data s text hb ht]
    exact successOutcome_successState P _ s
  · intro hf
    cases r with
    | rejected reason => rw [settle_rejected]; exact failureOutcome_failureState _ s
    | response ok status json =>
      cases ok with
      | false => rw [settle_not_ok]; exact failureOutcome_failureState _ s
      | true =>
        cases json with
        | error reason => rw [settle_json_error]; exact failureOutcome_failureState _ s
        | ok data =>
          cases hb : truthy (factBody data) with
          | false =>
            rw [settle_falsy P status data s hb]
            exact failureOutcome_failureState _ s
          | true =>
            rcases hf status data rfl with h1 | ⟨err, h1⟩
            · rw [hb] at h1; cases h1
            · rw [settle_throws P status data s err hb h1]
              exact failureOutcome_failureState _ s
  · intro t
    simp [truthy, JSString]
  · intro n
    simp [JSString]

/-! ## Evaluations at concrete inputs -/

theorem reachable_run (P : NumConv) (es : List Event) (s : DogWidget)
    (h : Reachable P s) : Reachable P (run P es s) := by
  induction es generalizing s with
  | nil => exact h
  | cons e es ih => exact ih _ (Reachable.step e s h)

theorem construct_auto : construct ecmaConv (some autoOptions) =
    .ok (constructed ecmaConv (some autoOptions)) := by
  rfl

theorem construct_autoFive : construct ecmaConv (some autoFiveOptions) =
    .ok (constructed ecmaConv (some autoFiveOptions)) := by
  rfl

theorem construct_default : construct ecmaConv none = .ok (constructed ecmaConv none) := by
  rfl

/-- C3, at the failing input. A widget constructed with mode auto and never
attached has a stored handle and a live interval; so has a widget that was
attached, detached, and then assigned a refresh value. -/
theorem timer_live_while_detached :
    construct ecmaConv (some autoOptions) = .ok (constructed ecmaConv (some autoOptions)) ∧
    (constructed ecmaConv (some autoOptions)).isConnected = false ∧
    get_mode (constructed ecmaConv (some autoOptions)) = "auto" ∧
    (constructed ecmaConv (some autoOptions))._timerId = some 1 ∧
    (constructed ecmaConv (some autoOptions)).intervals.map Prod.fst = [1] ∧
    (run ecmaConv [.attach, .detach, .assignRefresh (.number (.fin 5))]
      (constructed ecmaConv (some autoOptions))).isConnected = false ∧
    (run ecmaConv [.attach, .detach, .assignRefresh (.number (.fin 5))]
      (constructed ecmaConv (some autoOptions)))._timerId = some 4 ∧
    (run ecmaConv [.attach, .detach, .assignRefresh (.number (.fin 5))]
      (constructed ecmaConv (some autoOptions))).intervals.map Prod.fst = [4] := by
  refine ⟨construct_auto, ?_⟩
  decide

/-- C10, at the failing input. A widget constructed with mode auto is
attached, its request settles, and the mode is set to basic: the mode is
basic, no request is in flight, the button is shown, and it is disabled, so
that a click does nothing. -/
theorem basic_button_left_disabled :
    construct ecmaConv (some autoOptions) = .ok (constructed ecmaConv (some autoOptions)) ∧
    get_mode (run ecmaConv
      [.attach, .settle (.response true 200 (.ok factPayload)), .assignMode (.string "basic")]
      (constructed ecmaConv (some autoOptions))) = "basic" ∧
    (run ecmaConv
      [.attach, .settle (.response true 200 (.ok factPayload)), .assignMode (.string "basic")]
      (constructed ecmaConv (some autoOptions))).inFlight = 0 ∧
    (run ecmaConv
      [.attach, .settle (.response true 200 (.ok factPayload)), .assignMode (.string "basic")]
      (constructed ecmaConv (some autoOptions))).buttonDisplay = "" ∧
    (run ecmaConv
      [.attach, .settle (.response true 200 (.ok factPayload)), .assignMode (.string "basic")]
      (constructed ecmaConv (some autoOptions))).buttonDisabled = true ∧
    fetchCount (applyEvent ecmaConv .click (run ecmaConv
      [.attach, .settle (.response true 200 (.ok factPayload)), .assignMode (.string "basic")]
      (constructed ecmaConv (some autoOptions)))).log = 1 := by
  refine ⟨construct_auto, ?_⟩
  decide

/-! ## Normalisation of the two properties -/

theorem setAttribute_refresh_attr (P : NumConv) (value : String) (s : DogWidget) :
    (setAttribute P "refresh" value s).refreshAttr = some value := by
  cases ht : s._timerId <;>
  simp [setAttribute, observedAttributes, attributeChangedCallback, getAttribute,
    storeAttribute, _restartTimer, _startTimer, _stopTimer, ht] <;>
  split_ifs <;> simp_all

theorem removeAttribute_mode_attr (P : NumConv) (s : DogWidget) :
    (removeAttribute P "mode" s).modeAttr = none := by
  cases ht : s._timerId <;> cases ho : s.modeAttr <;>
  simp [removeAttribute, observedAttributes, attributeChangedCallback, getAttribute,
    storeAttribute, _handleModeChange, _startTimer, _stopTimer, _updateButtonVisibility,
    basic_ne_auto, ht, ho]

theorem removeAttribute_refresh_attr (P : NumConv) (s : DogWidget) :
    (removeAttribute P "refresh" s).refreshAttr = none := by
  cases ht : s._timerId <;> cases ho : s.refreshAttr <;>
  simp [removeAttribute, observedAttributes, attributeChangedCallback, getAttribute,
    storeAttribute, _restartTimer, _startTimer, _stopTimer, ht, ho] <;>
  split_ifs <;> simp_all

theorem mode_after_removeAttribute (P : NumConv) (s : DogWidget) (h : Reachable P s) :
    get_mode (removeAttribute P "mode" s) = "basic" := by
  have hi := invG_removeAttribute P _ "mode" s (reachable_inv P s h)
  have ha := removeAttribute_mode_attr P s
  rcases hi.mode_values with k | k
  · have := hi.mode_attr.mp k
    rw [ha] at this
    cases this
  · exact k

theorem refresh_after_removeAttribute (P : NumConv) (s : DogWidget) (h : Reachable P s) :
    get_refresh (removeAttribute P "refresh" s) = .fin 10 := by
  have hi := invG_removeAttribute P _ "refresh" s (reachable_inv P s h)
  have k3 := hi.refresh_attr
  rw [removeAttribute_refresh_attr] at k3
  simpa [get_refresh, attrNumber, fin_zero_not_pos] using k3

/-- In every reachable state a stored timer handle implies auto mode, and an
attached widget in auto mode has a stored handle. -/
theorem timer_handle_sound (P : NumConv) (s : DogWidget) (h : Reachable P s) :
    (s._timerId ≠ none → get_mode s = "auto") ∧
    (s.isConnected = true → get_mode s = "auto" → s._timerId ≠ none) :=
  ⟨(reachable_inv P s h).timer_mode, (reachable_inv P s h).attached_auto⟩

theorem strictEqString_iff (v : JSValue) (lit : String) :
    strictEqString v lit = true ↔ v = .string lit := by
  cases v <;> simp [strictEqString]

theorem mode_after_setAttribute (P : NumConv) (s : DogWidget) (h : Reachable P s)
    (a : String) :
    (a = "auto" → get_mode (setAttribute P "mode" a s) = "auto") ∧
    (a ≠ "auto" → get_mode (setAttribute P "mode" a s) = "basic") := by
  have hi := invG_setAttribute P _ "mode" a s (reachable_inv P s h)
  have ha := setAttribute_mode_attr P a s
  obtain ⟨k1, k2, -, -, -, -, -⟩ := hi
  unfold get_mode
  constructor
  · intro e
    subst e
    exact k2.mpr ha
  · intro e
    rcases k1 with k | k
    · have := k2.mp k
      rw [ha] at this
      injection this with this
      exact absurd this e
    · exact k

/-- C1. In every reachable state, after assigning a value `v` to the property
`mode`, or after changing the attribute `mode` to a string `a`, reading
`mode` gives "auto" when the input is exactly the string "auto" and "basic"
for every other input, and also after the attribute is removed; this covers
the states in which the attribute already holds the written string and the
change callback returns at once. -/
theorem mode_normalized (P : NumConv) (s : DogWidget) (h : Reachable P s)
    (v : JSValue) (a : String) :
    (v = .string "auto" → get_mode (set_mode P v s) = "auto") ∧
    (v ≠ .string "auto" → get_mode (set_mode P v s) = "basic") ∧
    (a = "auto" → get_mode (setAttribute P "mode" a s) = "auto") ∧
    (a ≠ "auto" → get_mode (setAttribute P "mode" a s) = "basic") ∧
    get_mode (removeAttribute P "mode" s) = "basic" := by
  refine ⟨?_, ?_, (mode_after_setAttribute P s h a).1, (mode_after_setAttribute P s h a).2,
    mode_after_removeAttribute P s h⟩
  · intro e
    have : strictEqString v "auto" = true := (strictEqString_iff v "auto").mpr e
    simp only [set_mode, this, if_true]
    exact (mode_after_setAttribute P s h "auto").1 rfl
  · intro e
    have : ¬ strictEqString v "auto" = true := fun k => e ((strictEqString_iff v "auto").mp k)
    simp only [set_mode, this, if_false]
    exact (mode_after_setAttribute P s h "basic").2 basic_ne_auto

theorem refresh_after_setAttribute (P : NumConv) (s : DogWidget) (h : Reachable P s)
    (a : String) :
    get_refresh (setAttribute P "refresh" a s) = specRefresh (P.stringToNumber a) := by
  have hi := invG_setAttribute P _ "refresh" a s (reachable_inv P s h)
  have ha := setAttribute_refresh_attr P a s
  obtain ⟨-, -, k3, -, -, -, -⟩ := hi
  rw [ha] at k3
  simpa [get_refresh, specRefresh, attrNumber] using k3

theorem specRefresh_pos (n : JSNum) :
    (specRefresh n).isFinite = true ∧ (specRefresh n).gtZero = true := by
  unfold specRefresh
  split_ifs with h
  · exact h
  · exact ⟨fin_ten_finite, fin_ten_pos⟩

theorem specRefresh_idem (n : JSNum) : specRefresh (specRefresh n) = specRefresh n := by
  have h := specRefresh_pos n
  generalize specRefresh n = m at h
  simp [specRefresh, h.1, h.2]

theorem set_refresh_eq (P : NumConv) (v : JSValue) (s : DogWidget) (n : JSNum)
    (h : Number P v = .ok n) :
    set_refresh P v s = .ok (setAttribute P "refresh" (P.numberToString (specRefresh n)) s) := by
  simp [set_refresh, h, specRefresh]

/-- C2, as amended. In every reachable state of the widget under the
conversions of the language: after changing the attribute `refresh` to a
string `a`, reading `refresh` gives the number parsed from `a` when it is
finite and greater than 0 and 10 otherwise, and 10 after the attribute is
removed.  For a value `v` on which `Number(v)` returns a number `n` (which it
does on `undefined`, `null`, booleans, numbers and strings), assigning `v` to
the property `refresh` returns normally, the attribute then holds the string
form of the normalised number, that string parses back to the same number, and
reading `refresh` gives the normalised number: `n` when it is finite and
greater than 0, and 10 otherwise.  When `Number(v)` throws, the assignment
throws the same error and the widget is unchanged. -/
theorem refresh_normalized (s : DogWidget) (h : Reachable ecmaConv s)
    (v : JSValue) (a : String) :
    get_refresh (setAttribute ecmaConv "refresh" a s) = specRefresh (stringToNumber a) ∧
    get_refresh (removeAttribute ecmaConv "refresh" s) = .fin 10 ∧
    (∀ n, Number ecmaConv v = .ok n →
      stringToNumber (numberToString (specRefresh n)) = specRefresh n ∧
      ∃ s1, set_refresh ecmaConv v s = .ok s1 ∧
        s1.refreshAttr = some (numberToString (specRefresh n)) ∧
        get_refresh s1 = specRefresh n) ∧
    (∀ err, Number ecmaConv v = .error err →
      set_refresh ecmaConv v s = .error err ∧
      applyEvent ecmaConv (.assignRefresh v) s = s) ∧
    (isPlainPrimitive v = true → ∃ n, Number ecmaConv v = .ok n) := by
  refine ⟨refresh_after_setAttribute ecmaConv s h a,
    refresh_after_removeAttribute ecmaConv s h, ?_, ?_, ?_⟩
  · intro n hn
    have hrt := ecma_roundTrip (specRefresh n) (specRefresh_pos n).1 (specRefresh_pos n).2
    refine ⟨hrt, _, set_refresh_eq ecmaConv v s n hn, ?_, ?_⟩
    · exact setAttribute_refresh_attr ecmaConv _ s
    · have := refresh_after_setAttribute ecmaConv s h
        (ecmaConv.numberToString (specRefresh n))
      rw [this, hrt, specRefresh_idem]
  · intro err he
    have : set_refresh ecmaConv v s = .error err := by simp [set_refresh, he]
    exact ⟨this, by simp [applyEvent, this]⟩
  · intro hp
    cases v <;> simp [isPlainPrimitive] at hp <;> simp [Number]

/-- C9. In every reachable state the intervals registered with `setInterval`
and not yet cleared are at most one, and a live interval is the one whose
handle is stored in `_timerId`; arming the timer in such a state leaves
exactly one live interval, the newly created one. -/
theorem at_most_one_interval (P : NumConv) (s : DogWidget) (h : Reachable P s) :
    s.intervals.length ≤ 1 ∧
    (∀ t ∈ s.intervals, s._timerId = some t.1) ∧
    (_startTimer s).intervals.map Prod.fst = [s.nextHandle] ∧
    (_startTimer s)._timerId = some s.nextHandle := by
  obtain ⟨-, -, -, k4, -, -, -⟩ := reachable_inv P s h
  cases ht : s._timerId <;> simp_all [_startTimer, _stopTimer]

/-! ## Instances at concrete inputs -/

theorem mode_normalized_witness :
    Reachable ecmaConv (constructed ecmaConv (some autoOptions)) ∧
    get_mode (set_mode ecmaConv (.string "auto")
      (constructed ecmaConv (some autoOptions))) = "auto" ∧
    get_mode (set_mode ecmaConv (.number (.fin 3))
      (constructed ecmaConv (some autoOptions))) = "basic" ∧
    get_mode (setAttribute ecmaConv "mode" "AUTO"
      (constructed ecmaConv (some autoOptions))) = "basic" :=
  ⟨Reachable.init _ _ construct_auto,
    (mode_normalized ecmaConv _ (Reachable.init _ _ construct_auto)
      (.string "auto") "AUTO").1 rfl,
    (mode_normalized ecmaConv _ (Reachable.init _ _ construct_auto)
      (.number (.fin 3)) "AUTO").2.1 (by intro h; cases h),
    (mode_normalized ecmaConv _ (Reachable.init _ _ construct_auto)
      (.string "auto") "AUTO").2.2.2.1 (by decide)⟩

/-- C2, counterexample. A widget whose refresh value is 5 is assigned an
object with an own property `toString` that is not callable: `Number` throws,
so does the setter, and reading `refresh` afterwards gives 5 and not 10. -/
theorem refresh_setter_throws :
    Reachable ecmaConv (constructed ecmaConv (some autoFiveOptions)) ∧
    get_refresh (constructed ecmaConv (some autoFiveOptions)) = .fin 5 ∧
    Number ecmaConv throwingObject = .error primitiveError ∧
    set_refresh ecmaConv throwingObject (constructed ecmaConv (some autoFiveOptions)) =
      .error primitiveError ∧
    get_refresh (applyEvent ecmaConv (.assignRefresh throwingObject)
      (constructed ecmaConv (some autoFiveOptions))) = .fin 5 ∧
    JSNum.fin 5 ≠ JSNum.fin 10 :=
  ⟨Reachable.init _ _ construct_autoFive, by decide, rfl, rfl, by decide, by decide⟩

theorem refresh_normalized_witness :
    Reachable ecmaConv (constructed ecmaConv (some autoOptions)) ∧
    Number ecmaConv (.string " 2.5e1 ") = .ok (stringToNumber " 2.5e1 ") ∧
    (∃ s1, set_refresh ecmaConv (.string " 2.5e1 ")
        (constructed ecmaConv (some autoOptions)) = .ok s1 ∧
      s1.refreshAttr = some (numberToString (specRefresh (stringToNumber " 2.5e1 "))) ∧
      get_refresh s1 = specRefresh (stringToNumber " 2.5e1 ")) ∧
    specRefresh (stringToNumber " 2.5e1 ") = .fin 25 ∧
    numberToString (.fin 25) = "25" :=
  ⟨Reachable.init _ _ construct_auto, rfl,
    ((refresh_normalized _ (Reachable.init _ _ construct_auto) (.string " 2.5e1 ") "abc").2.2.1
      _ rfl).2,
    by decide, by decide⟩

/-- C4, counterexample. A widget constructed with mode auto has no `refresh`
attribute and the refresh value 10; assigning 10 to the property `refresh`
clears the live interval and registers a new one.  The same happens when the
attribute holds the raw string 05, whose value is 5, and 5 is assigned. -/
theorem refresh_reassignment_restarts_timer :
    Reachable ecmaConv (constructed ecmaConv (some autoOptions)) ∧
    get_refresh (constructed ecmaConv (some autoOptions)) = .fin 10 ∧
    (constructed ecmaConv (some autoOptions))._timerId = some 1 ∧
    (applyEvent ecmaConv (.assignRefresh (.number (.fin 10)))
      (constructed ecmaConv (some autoOptions)))._timerId = some 2 ∧
    timerCallCount (applyEvent ecmaConv (.assignRefresh (.number (.fin 10)))
      (constructed ecmaConv (some autoOptions))).log =
      timerCallCount (constructed ecmaConv (some autoOptions)).log + 2 ∧
    get_refresh (setAttribute ecmaConv "refresh" "05"
      (constructed ecmaConv (some autoOptions))) = .fin 5 ∧
    timerCallCount (applyEvent ecmaConv (.assignRefresh (.number (.fin 5)))
      (setAttribute ecmaConv "refresh" "05"
        (constructed ecmaConv (some autoOptions)))).log =
      timerCallCount (setAttribute ecmaConv "refresh" "05"
        (constructed ecmaConv (some autoOptions))).log + 2 :=
  ⟨Reachable.init _ _ construct_auto, by decide, by decide, by decide, by decide, by decide,
    by decide⟩

theorem idempotent_assignment_witness :
    Reachable ecmaConv (constructed ecmaConv none) ∧
    get_mode (constructed ecmaConv none) = "basic" ∧
    (∃ s1, set_refresh ecmaConv (.number (get_refresh (constructed ecmaConv none)))
        (constructed ecmaConv none) = .ok s1 ∧
      s1.log = (constructed ecmaConv none).log) ∧
    (set_mode ecmaConv (.string (get_mode (constructed ecmaConv (some autoOptions))))
      (constructed ecmaConv (some autoOptions))).log =
      (constructed ecmaConv (some autoOptions)).log ∧
    get_mode (constructed ecmaConv (some autoOptions)) = "auto" ∧
    (constructed ecmaConv (some autoOptions)).refreshAttr ≠
      some (ecmaConv.numberToString (get_refresh (constructed ecmaConv (some autoOptions)))) ∧
    (∃ s1, set_refresh ecmaConv
        (.number (get_refresh (constructed ecmaConv (some autoOptions))))
        (constructed ecmaConv (some autoOptions)) = .ok s1 ∧
      s1._timerId = some (constructed ecmaConv (some autoOptions)).nextHandle) :=
  ⟨Reachable.init _ _ construct_default, rfl,
    (idempotent_assignment ecmaConv _ (Reachable.init _ _ construct_default)).2.imp
      (fun _ hs => ⟨hs.1, (hs.2.1 (Or.inl rfl)).1⟩),
    (idempotent_assignment ecmaConv _ (Reachable.init _ _ construct_auto)).1.1,
    by decide, by decide,
    (idempotent_assignment ecmaConv _ (Reachable.init _ _ construct_auto)).2.imp
      (fun _ hs => ⟨hs.1, (hs.2.2 (by decide) (by decide)).2.1⟩)⟩

/-- Products in double arithmetic: 1.1 times 1000 is 1100, although the exact
product of the double nearest to 1.1 and 1000 is not; the product of the
largest double and 1000 is Infinity. -/
theorem product_examples :
    (stringToNumber "1.1").mul (.fin 1000) = .fin 1100 ∧
    (stringToNumber "5").mul (.fin 1000) = .fin 5000 ∧
    (stringToNumber "1.7976931348623157e308").mul (.fin 1000) = .posInf := by
  decide!

set_option maxRecDepth 4000 in
theorem attach_fetch_and_timer_witness :
    Reachable ecmaConv (constructed ecmaConv (some autoFiveOptions)) ∧
    (∃ s1, connectedCallback ecmaConv (constructed ecmaConv (some autoFiveOptions)) = .ok s1 ∧
      fetchCount s1.log = fetchCount (constructed ecmaConv (some autoFiveOptions)).log + 1) ∧
    connectedCallback ecmaConv (constructed ecmaConv (some autoFiveOptions)) =
      .ok (connectedState ecmaConv (constructed ecmaConv (some autoFiveOptions))) ∧
    fetchCount (connectedState ecmaConv (constructed ecmaConv (some autoFiveOptions))).log = 1 ∧
    get_mode (connectedState ecmaConv (constructed ecmaConv (some autoFiveOptions))) = "auto" ∧
    (connectedState ecmaConv (constructed ecmaConv (some autoFiveOptions))).intervals =
      [(3, .fin 5000)] ∧
    (connectedState ecmaConv (constructed ecmaConv (some autoFiveOptions))).buttonDisplay =
      "none" ∧
    get_refresh (setAttribute ecmaConv "refresh" "1.1"
      (constructed ecmaConv (some autoOptions))) = stringToNumber "1.1" ∧
    (connectedState ecmaConv (setAttribute ecmaConv "refresh" "1.1"
      (constructed ecmaConv (some autoOptions)))).intervals = [(3, .fin 1100)] :=
  ⟨Reachable.init _ _ construct_autoFive,
    (attach_fetch_and_timer ecmaConv _ (Reachable.init _ _ construct_autoFive)).imp
      (fun _ hs => ⟨hs.1, hs.2.1⟩),
    connectedCallback_eq _ _, by decide, by decide, by decide, by decide, by decide,
    by decide⟩

theorem mode_transitions_witness :
    Reachable ecmaConv (constructed ecmaConv none) ∧
    get_mode (constructed ecmaConv none) = "basic" ∧
    ArmedHidden (constructed ecmaConv none)
      (set_mode ecmaConv (.string "auto") (constructed ecmaConv none)) ∧
    Reachable ecmaConv (constructed ecmaConv (some autoOptions)) ∧
    get_mode (constructed ecmaConv (some autoOptions)) = "auto" ∧
    DisarmedShown (constructed ecmaConv (some autoOptions))
      (setAttribute ecmaConv "mode" "manual" (constructed ecmaConv (some autoOptions))) :=
  ⟨Reachable.init _ _ construct_default, rfl,
    ((mode_transitions ecmaConv _ (Reachable.init _ _ construct_default) .null "manual").1
      rfl).1,
    Reachable.init _ _ construct_auto, by decide,
    ((mode_transitions ecmaConv _ (Reachable.init _ _ construct_auto) .null "manual").2
      (by decide)).2.1 (by decide)⟩

theorem fetch_failures_collapse_witness :
    factBody emptyPayload = .undefined ∧
    FailureOutcome (constructed ecmaConv none)
      (_fetchFact_settle ecmaConv (.response true 200 (.ok emptyPayload))
        (constructed ecmaConv none)) :=
  ⟨rfl,
    (fetch_failures_collapse ecmaConv (constructed ecmaConv none) "offline" 500
      (.error "bad json") emptyPayload).2.2 rfl⟩

/-- C8, counterexample. An OK response whose fact field holds the number 42,
not a string, renders the success outcome: the fact area shows 42 and the
status area shows the message of basic mode. -/
theorem number_body_renders_success :
    factBody numberPayload = .number (.fin 42) ∧
    (_fetchFact_settle ecmaConv (.response true 200 (.ok numberPayload))
      (_fetchFact (constructed ecmaConv none))).toOption.map
        (fun s1 => (s1.factText, s1.statusText)) = some ("42", basicStatusText) :=
  ⟨rfl, by decide⟩

theorem fetch_outcome_witness :
    truthy (factBody factPayload) = true ∧
    JSString ecmaConv (factBody factPayload) = .ok "Dogs have three eyelids." ∧
    SuccessOutcome ecmaConv "Dogs have three eyelids." (constructed ecmaConv none)
      (_fetchFact_settle ecmaConv (.response true 200 (.ok factPayload))
        (constructed ecmaConv none)) ∧
    truthy (factBody throwingPayload) = true ∧
    JSString ecmaConv (factBody throwingPayload) = .error primitiveError ∧
    FailureOutcome (constructed ecmaConv none)
      (_fetchFact_settle ecmaConv (.response true 200 (.ok throwingPayload))
        (constructed ecmaConv none)) :=
  ⟨by decide, rfl,
    (fetch_outcome ecmaConv (constructed ecmaConv none)
      (.response true 200 (.ok factPayload))).1 200 factPayload _ rfl (by decide) rfl,
    by decide, rfl,
    (fetch_outcome ecmaConv (constructed ecmaConv none)
      (.response true 200 (.ok throwingPayload))).2.1 (by
        intro status data h
        injection h with _ _ h3
        injection h3 with h3
        subst h3
        exact Or.inr ⟨primitiveError, rfl⟩)⟩

theorem at_most_one_interval_witness :
    Reachable ecmaConv (constructed ecmaConv (some autoOptions)) ∧
    (constructed ecmaConv (some autoOptions)).intervals.length ≤ 1 ∧
    (constructed ecmaConv (some autoOptions)).intervals.length = 1 :=
  ⟨Reachable.init _ _ construct_auto,
    (at_most_one_interval ecmaConv _ (Reachable.init _ _ construct_auto)).1,
    by decide⟩

end KT5
